import Mathlib

/-!
Verification development for the icon build pipeline of
`eveicongenerator` (file `src/icons.rs`).

The Rust code is shallowly embedded: `HashMap`s become association lists
(iteration modelled in insertion order), `HashSet`s become duplicate-free
lists, the resource-store collaborator (`SharedCache`) becomes a record of
pure functions (`Option` models `Result`), and the filesystem / process
side effects of the run (compositing commands, file copies, index writes,
publishing, link creation, deletions) are recorded as an explicit event
trace.  Image pixel operations themselves and the md5 digest are outside
the embedding; events carry enough data (resource paths, serialized index
bytes) to state the claims about them.
-/

namespace IconGen

/-- Fuel-driven recursion computing the decimal digits; the fuel dominates
the recursion depth so the definition stays structurally recursive. -/
def natDigitsGo (fuel n : Nat) : List Char :=
  match fuel with
  | 0 => []
  | fuel + 1 =>
    if n < 10 then [Nat.digitChar n]
    else natDigitsGo fuel (n / 10) ++ [Nat.digitChar (n % 10)]

/-- Decimal digit list of a natural number, most significant first; models
Rust's `format!("{}", n)` for the `u32` ids. -/
def natDigits (n : Nat) : List Char := natDigitsGo (n + 1) n

theorem natDigitsGo_congr {a b n : Nat} (h₁ : n < a) (h₂ : n < b) :
    natDigitsGo a n = natDigitsGo b n := by
  induction a generalizing b n with
  | zero => omega
  | succ g ih =>
    cases b with
    | zero => omega
    | succ h =>
      simp only [natDigitsGo]
      by_cases hn : n < 10
      · simp [hn]
      · simp only [if_neg hn]
        rw [ih (n := n / 10) (b := h) (by omega) (by omega)]

theorem natDigits_unfold (n : Nat) :
    natDigits n = if n < 10 then [Nat.digitChar n]
      else natDigits (n / 10) ++ [Nat.digitChar (n % 10)] := by
  by_cases hn : n < 10
  · simp only [natDigits, natDigitsGo, if_pos hn]
  · simp only [if_neg hn]
    conv_lhs => rw [show natDigits n
      = natDigitsGo n (n / 10) ++ [Nat.digitChar (n % 10)] from by
        simp only [natDigits, natDigitsGo, if_neg hn]]
    rw [natDigitsGo_congr (n := n / 10) (b := n / 10 + 1) (by omega) (by omega)]
    rfl

/-- Decimal string of a natural number (Rust `Display` for the ids). -/
def natRepr (n : Nat) : String := (natDigits n).asString

/-- Model of Rust's `str::trim_end_matches('/')` on the graphics folder. -/
def trimEndSlashes (s : String) : String :=
  ((s.toList.reverse.dropWhile (· = '/')).reverse).asString

/-- Industry "reaction" blueprints use a different background
(`REACTION_GROUPS` in `icons.rs`). -/
def REACTION_GROUPS : List Nat := [1888, 1889, 1890, 4097]

/-- Groups whose types have 3D models and a graphicID but use a 2D icon for
their inventory icon (`USE_ICON_INSTEAD_OF_GRAPHIC_GROUPS` in `icons.rs`). -/
def USE_ICON_INSTEAD_OF_GRAPHIC_GROUPS : List Nat :=
  [12, 340, 448, 479, 548, 649, 711, 4168]

/-- Per-type classification input (struct `TypeInfo` in `icons.rs`). -/
structure TypeInfo where
  group_id : Nat
  icon_id : Option Nat
  graphic_id : Option Nat
  meta_group_id : Option Nat
deriving DecidableEq, Repr

/-- Static table mapping a meta-group id to its optional tech-tier overlay
resource (`techicon_resource_for_metagroup` in `icons.rs`). -/
def techicon_resource_for_metagroup (metagroup_id : Nat) : Option String :=
  match metagroup_id with
  | 1 => none
  | 2 => some "res:/ui/texture/icons/73_16_242.png"
  | 3 => some "res:/ui/texture/icons/73_16_245.png"
  | 4 => some "res:/ui/texture/icons/73_16_246.png"
  | 5 => some "res:/ui/texture/icons/73_16_248.png"
  | 6 => some "res:/ui/texture/icons/73_16_247.png"
  | 14 => some "res:/ui/texture/icons/73_16_243.png"
  | 15 => some "res:/ui/texture/icons/itemoverlay/abyssal.png"
  | 17 => some "res:/ui/texture/icons/itemoverlay/nes.png"
  | 19 => some "res:/ui/texture/icons/itemoverlay/timelimited.png"
  | 52 => some "res:/ui/texture/shared/structureoverlayfaction.png"
  | 53 => some "res:/ui/texture/shared/structureoverlayt2.png"
  | 54 => some "res:/ui/texture/shared/structureoverlay.png"
  | _ => none

/-- Errors of the run (`IconError` in `icons.rs`); the `cache` constructor
stands for `IconError::Cache(_)`, `string` for `IconError::String(_)`.
IO / image / external-tool errors are not representable in the embedding. -/
inductive IconErr where
  | cache
  | string (msg : String)
deriving DecidableEq, Repr

/-- The build data (struct `IconBuildData`): the type list plus the four
lookup tables, the `HashMap`s modelled as functions into `Option`. -/
structure IconBuildData where
  types : List (Nat × TypeInfo)
  group_categories : Nat → Option Nat
  icon_files : Nat → Option String
  graphics_folders : Nat → Option String
  skin_materials : Nat → Option Nat

/-- The closed set of icon variants (enum `IconKind`). -/
inductive IconKind where
  | Icon
  | Blueprint
  | BlueprintCopy
  | Reaction
  | Relic
  | Render
deriving DecidableEq, Repr

/-- Serialized tag of a kind (`IconKind::name`, also the serde rename). -/
def IconKind.name : IconKind → String
  | .Icon => "icon"
  | .Blueprint => "bp"
  | .BlueprintCopy => "bpc"
  | .Reaction => "reaction"
  | .Relic => "relic"
  | .Render => "render"

/-- Output mode selected for the run (enum `OutputMode`). -/
inductive OutputMode where
  | serviceBundle (out : String)
  | iec (out : String)
  | web (out : String) (copy_files : Bool) (hard_link : Bool)
  | checksum (out : Option String)
deriving DecidableEq, Repr

/-- The resource-store collaborator (trait `SharedCache`): `none` models the
`Err(CacheError)` results of `hash_of` / `path_of`. -/
structure CacheModel where
  has_resource : String → Bool
  hash_of : String → Option String
  path_of : String → Option String

/-- Observable side effects of a run, in order of occurrence. -/
inductive Event where
  /-- `composite_tech(icon_path, tech_path, out)`: 64x64 icon with 16x16
  tech overlay written to the cache file `outFile`. -/
  | compositeTech (iconPath techPath outFile : String)
  /-- `composite_blueprint(background, overlay, icon, tech?, out)`. -/
  | compositeBlueprint (bgPath overlayPath iconPath : String)
      (techPath : Option String) (outFile : String)
  /-- `copy_or_convert(from, to, resource, extension)`. -/
  | copyOrConvert (fromPath outFile resource ext : String)
  /-- `fs::write(index_path, index_bytes)`: the cache.csv record. -/
  | writeIndexFile (bytes : List Char)
  /-- Service-bundle zip written. -/
  | publishServiceBundle
  /-- IEC zip written. -/
  | publishIEC
  /-- Web mode: a per-type manifest json file written. -/
  | webWriteManifest (name content : String)
  /-- Web mode: a link (copy / hard link / symlink) created. -/
  | webCreateLink (name target : String)
  /-- Web mode: a stale entry removed from the web directory. -/
  | webRemoveStale (name : String)
  /-- Web mode: index.json rewritten with the created-files map. -/
  | webWriteLinkIndex (files : List (String × String))
  /-- Checksum written to a file (digest is a function of the bytes). -/
  | writeChecksumFile (bytes : List Char)
  /-- Checksum printed to stdout (digest is a function of the bytes). -/
  | printChecksum (bytes : List Char)
  /-- A no-longer-referenced cache file deleted at the end of the run. -/
  | removeCachedFile (filename : String)
deriving DecidableEq, Repr

/-- `HashSet<String>::insert`, on a duplicate-free list. -/
def insertSet (l : List String) (x : String) : List String :=
  if x ∈ l then l else l ++ [x]

/-- Association-list mirror of the per-type `HashMap<IconKind, String>`
insert: replace in place, else append. -/
def kindInsert (m : List (IconKind × String)) (k : IconKind) (v : String) :
    List (IconKind × String) :=
  match m with
  | [] => [(k, v)]
  | (k', v') :: rest =>
    if k' = k then (k, v) :: rest else (k', v') :: kindInsert rest k v

/-- The in-memory `service_metadata` map: type id to (kind to filename). -/
abbrev Meta := List (Nat × List (IconKind × String))

/-- `service_metadata.entry(tid).or_default().insert(k, v)`. -/
def metaInsert (m : Meta) (tid : Nat) (k : IconKind) (v : String) : Meta :=
  match m with
  | [] => [(tid, [(k, v)])]
  | (t, icons) :: rest =>
    if t = tid then (t, kindInsert icons k v) :: rest
    else (t, icons) :: metaInsert rest tid k v

/-- Mutable state threaded through the classification loop. -/
structure RunState where
  meta : Meta
  new_index : List String
  events : List Event
deriving DecidableEq, Repr

/-- State-and-error monad of the loop; errors abort but the state (and so
the trace of effects already performed) is kept. -/
def IconM (α : Type) : Type := RunState → Except IconErr α × RunState

instance : Monad IconM where
  pure a := fun s => (.ok a, s)
  bind x f := fun s =>
    match x s with
    | (.ok a, s') => f a s'
    | (.error e, s') => (.error e, s')

/-- Lift a pure fallible computation (a Rust `?` site). -/
def liftE {α : Type} (e : Except IconErr α) : IconM α := fun s => (e, s)

/-- `cache.hash_of(r)?`. -/
def hashOfE (cache : CacheModel) (r : String) : Except IconErr String :=
  match cache.hash_of r with
  | some h => .ok h
  | none => .error .cache

/-- `cache.path_of(r)?`. -/
def pathOfE (cache : CacheModel) (r : String) : Except IconErr String :=
  match cache.path_of r with
  | some p => .ok p
  | none => .error .cache

/-- `opt.map(|r| cache.hash_of(r)).transpose()?`. -/
def hashOfOptE (cache : CacheModel) : Option String → Except IconErr (Option String)
  | none => .ok none
  | some r => (hashOfE cache r).map some

/-- `opt.map(|r| cache.path_of(r)).transpose()?`. -/
def pathOfOptE (cache : CacheModel) : Option String → Except IconErr (Option String)
  | none => .ok none
  | some r => (pathOfE cache r).map some

/-- `data.group_categories.get(&g).ok_or(...)` — fatal when absent. -/
def getCategory (data : IconBuildData) (g : Nat) : Except IconErr Nat :=
  match data.group_categories g with
  | some c => .ok c
  | none => .error (.string ("group without category: " ++ natRepr g))

/-- `data.icon_files.get(&icon).ok_or(...)` — fatal when absent. -/
def getIconFile (data : IconBuildData) (icon : Nat) : Except IconErr String :=
  match data.icon_files icon with
  | some f => .ok f
  | none => .error (.string ("unknown icon id: " ++ natRepr icon))

/-- The inner `is_up_to_date` helper of `build_icon_export`: always inserts
`filename` into the new index (side effect, returned second), and returns
whether the old index contained it and no forced rebuild was requested. -/
def is_up_to_date (old_index : List String) (new_index : List String)
    (filename : String) (force_rebuild : Bool) : Bool × List String :=
  (old_index.contains filename && !force_rebuild, insertSet new_index filename)

/-- Record metadata entries for `type_id`: one insert per kind, in order. -/
def recordMeta (type_id : Nat) (kinds : List IconKind) (filename : String) :
    IconM Unit := fun st =>
  (.ok (), { st with
    meta := kinds.foldl (fun m k => metaInsert m type_id k filename) st.meta })

/-- The repeated `if !is_up_to_date(..) { recipe()? }` pattern: register the
filename, and when stale resolve the recipe (source paths may fail) and
record its execution. -/
def checkAndRun (old_index : List String) (force_rebuild : Bool)
    (filename : String) (recipe : Except IconErr Event) : IconM Unit := fun st =>
  let (fresh, new') := is_up_to_date old_index st.new_index filename force_rebuild
  let st := { st with new_index := new' }
  if fresh then (.ok (), st)
  else
    match recipe with
    | .ok ev => (.ok (), { st with events := st.events ++ [ev] })
    | .error e => (.error e, st)

/-- The per-recipe pattern repeated at every call site of `is_up_to_date` in
the source: compute the content-addressed filename (hashing may fail),
record the metadata entries for the emitted kinds, then
`if !is_up_to_date(..) { recipe()? }`. -/
def cacheSite (old_index : List String) (force_rebuild : Bool)
    (type_id : Nat) (kinds : List IconKind)
    (fnameE : Except IconErr String)
    (recipeE : String → Except IconErr Event) : IconM Unit := do
  let filename ← liftE fnameE
  recordMeta type_id kinds filename
  checkAndRun old_index force_rebuild filename (recipeE filename)

/-- Shared tail of the regular-item branch (`icons.rs` lines 420-440):
emit the `Icon` kind from `icon_resource`, tech-overlaid if applicable;
a resource missing from the store is only logged. -/
def regularTail (cache : CacheModel) (old_index : List String)
    (force_rebuild : Bool) (type_id : Nat) (ti : TypeInfo)
    (icon_resource : String) : IconM Unit :=
  if cache.has_resource icon_resource then
    match techicon_resource_for_metagroup (ti.meta_group_id.getD 1) with
    | some techicon =>
      cacheSite old_index force_rebuild type_id [.Icon]
        (do
          let h1 ← hashOfE cache icon_resource
          let h2 ← hashOfE cache techicon
          .ok (h1 ++ ";" ++ h2 ++ ".png"))
        (fun filename => do
          let p1 ← pathOfE cache icon_resource
          let p2 ← pathOfE cache techicon
          .ok (.compositeTech p1 p2 filename))
    | none =>
      cacheSite old_index force_rebuild type_id [.Icon]
        (do
          let h ← hashOfE cache icon_resource
          .ok (h ++ ".png"))
        (fun filename => do
          let p ← pathOfE cache icon_resource
          .ok (.copyOrConvert p filename icon_resource ".png"))
  else
    pure ()

/-- One iteration of the classification loop of `build_icon_export`
(`icons.rs` lines 260-441), for one `(type_id, type_info)` pair. -/
def processType (data : IconBuildData) (cache : CacheModel)
    (old_index : List String) (force_rebuild : Bool)
    (type_id : Nat) (ti : TypeInfo) : IconM Unit := do
  let category_id ← liftE (getCategory data ti.group_id)
  if ti.icon_id = none ∧ ti.graphic_id = none ∧ category_id ≠ 91 then
    pure ()
  else if category_id = 9 ∨ category_id = 34 then
    -- Blueprint or reaction
    match ti.graphic_id.bind data.graphics_folders with
    | some folder =>
      -- `graphic_id.unwrap()` cannot panic here: the folder lookup succeeded
      let gid := ti.graphic_id.getD 0
      let icon_resource_bp :=
        trimEndSlashes folder ++ "/" ++ natRepr gid ++ "_64_bp.png"
      let icon_resource_bpc :=
        trimEndSlashes folder ++ "/" ++ natRepr gid ++ "_64_bpc.png"
      if cache.has_resource icon_resource_bp
          ∧ ti.group_id ∉ USE_ICON_INSTEAD_OF_GRAPHIC_GROUPS then
        match techicon_resource_for_metagroup (ti.meta_group_id.getD 1) with
        | some techicon => do
          cacheSite old_index force_rebuild type_id [.Icon, .Blueprint]
            (do
              let h1 ← hashOfE cache icon_resource_bp
              let h2 ← hashOfE cache techicon
              .ok ("bp;" ++ h1 ++ ";" ++ h2 ++ ".png"))
            (fun filename => do
              let p1 ← pathOfE cache icon_resource_bp
              let p2 ← pathOfE cache techicon
              .ok (.compositeTech p1 p2 filename))
          if cache.has_resource icon_resource_bpc then
            cacheSite old_index force_rebuild type_id [.BlueprintCopy]
              (do
                let h3 ← hashOfE cache icon_resource_bpc
                let h4 ← hashOfE cache techicon
                .ok ("bpc;" ++ h3 ++ ";" ++ h4 ++ ".png"))
              (fun filename => do
                let p1 ← pathOfE cache icon_resource_bpc
                let p2 ← pathOfE cache techicon
                .ok (.compositeTech p1 p2 filename))
          else
            pure ()
        | none => do
          cacheSite old_index force_rebuild type_id [.Icon, .Blueprint]
            (do
              let h1 ← hashOfE cache icon_resource_bp
              .ok ("bp;" ++ h1 ++ ".png"))
            (fun filename => do
              let p ← pathOfE cache icon_resource_bp
              .ok (.copyOrConvert p filename icon_resource_bp ".png"))
          if cache.has_resource icon_resource_bpc then
            cacheSite old_index force_rebuild type_id [.BlueprintCopy]
              (do
                let h2 ← hashOfE cache icon_resource_bpc
                .ok ("bpc;" ++ h2 ++ ".png"))
              (fun filename => do
                let p ← pathOfE cache icon_resource_bpc
                -- the source passes `icon_resource_bp` as the extension-check
                -- resource at this call site
                .ok (.copyOrConvert p filename icon_resource_bp ".png"))
          else
            pure ()
      else
        pure ()
    | none =>
      -- If no graphics icon, try icon
      match ti.icon_id with
      | some icon => do
        let icon_resource ← liftE (getIconFile data icon)
        if cache.has_resource icon_resource then
          let tech_overlay := techicon_resource_for_metagroup (ti.meta_group_id.getD 1)
          if category_id = 34 then
            cacheSite old_index force_rebuild type_id [.Icon, .Relic]
              (do
                let h ← hashOfE cache icon_resource
                let t ← hashOfOptE cache tech_overlay
                .ok ("relic;" ++ h ++ ";" ++ t.getD "" ++ ".png"))
              (fun filename => do
                let bg ← pathOfE cache "res:/ui/texture/icons/relic.png"
                let ov ← pathOfE cache "res:/ui/texture/icons/relic_overlay.png"
                let ic ← pathOfE cache icon_resource
                let tp ← pathOfOptE cache tech_overlay
                .ok (.compositeBlueprint bg ov ic tp filename))
          else if ti.group_id ∈ REACTION_GROUPS then
            -- the `Blueprint` tag is kept for backward compatibility
            cacheSite old_index force_rebuild type_id [.Icon, .Reaction, .Blueprint]
              (do
                let h ← hashOfE cache icon_resource
                let t ← hashOfOptE cache tech_overlay
                .ok ("reaction;" ++ h ++ ";" ++ t.getD "" ++ ".png"))
              (fun filename => do
                let bg ← pathOfE cache "res:/ui/texture/icons/reaction.png"
                let ov ← pathOfE cache "res:/ui/texture/icons/bpo_overlay.png"
                let ic ← pathOfE cache icon_resource
                let tp ← pathOfOptE cache tech_overlay
                .ok (.compositeBlueprint bg ov ic tp filename))
          else do
            cacheSite old_index force_rebuild type_id [.Icon, .Blueprint]
              (do
                let h ← hashOfE cache icon_resource
                let t ← hashOfOptE cache tech_overlay
                .ok ("bp;" ++ h ++ ";" ++ t.getD "" ++ ".png"))
              (fun filename => do
                let bg ← pathOfE cache "res:/ui/texture/icons/bpo.png"
                let ov ← pathOfE cache "res:/ui/texture/icons/bpo_overlay.png"
                let ic ← pathOfE cache icon_resource
                let tp ← pathOfOptE cache tech_overlay
                .ok (.compositeBlueprint bg ov ic tp filename))
            cacheSite old_index force_rebuild type_id [.BlueprintCopy]
              (do
                let h2 ← hashOfE cache icon_resource
                let t2 ← hashOfOptE cache tech_overlay
                .ok ("bpc;" ++ h2 ++ ";" ++ t2.getD "" ++ ".png"))
              (fun filename => do
                let bg ← pathOfE cache "res:/ui/texture/icons/bpc.png"
                let ov ← pathOfE cache "res:/ui/texture/icons/bpc_overlay.png"
                let ic ← pathOfE cache icon_resource
                let tp ← pathOfOptE cache tech_overlay
                .ok (.compositeBlueprint bg ov ic tp filename))
        else
          -- Missing icons are only logged and skipped
          pure ()
      | none =>
        pure () -- No icon to be generated here
  else
    -- Regular item
    match ti.graphic_id.bind data.graphics_folders with
    | some folder => do
      let gid := ti.graphic_id.getD 0
      let graphicRes := trimEndSlashes folder ++ "/" ++ natRepr gid ++ "_64.png"
      -- If no graphic (or an override group), try icon
      let resolved ← liftE (
        if ¬ cache.has_resource graphicRes
            ∨ ti.group_id ∈ USE_ICON_INSTEAD_OF_GRAPHIC_GROUPS then
          match ti.icon_id with
          | some icon => (getIconFile data icon).map some
          | none => .ok none -- No icon: continue
        else .ok (some graphicRes))
      match resolved with
      | none => pure ()
      | some icon_resource => do
        let render_resource :=
          trimEndSlashes folder ++ "/" ++ natRepr gid ++ "_512.jpg"
        if cache.has_resource render_resource then
          cacheSite old_index force_rebuild type_id [.Render]
            (do
              let hr ← hashOfE cache render_resource
              .ok (hr ++ ".jpg"))
            (fun filename => do
              let p ← pathOfE cache render_resource
              .ok (.copyOrConvert p filename render_resource ".jpg"))
        else
          pure ()
        regularTail cache old_index force_rebuild type_id ti icon_resource
    | none =>
      match ti.icon_id with
      | some icon => do
        let icon_resource ← liftE (getIconFile data icon)
        regularTail cache old_index force_rebuild type_id ti icon_resource
      | none =>
        if category_id = 91 then
          -- SKIN
          match data.skin_materials type_id with
          | some material_id =>
            regularTail cache old_index force_rebuild type_id ti
              ("res:/ui/texture/classes/skins/icons/" ++ natRepr material_id ++ ".png")
          | none =>
            -- Region-exclusive skins without resources: treat as no-icon
            pure ()
        else
          pure () -- No icon to be generated here

/-- The classification loop over all types. -/
def processTypes (data : IconBuildData) (cache : CacheModel)
    (old_index : List String) (force_rebuild : Bool) :
    List (Nat × TypeInfo) → IconM Unit
  | [] => pure ()
  | (type_id, ti) :: rest => do
    processType data cache old_index force_rebuild type_id ti
    processTypes data cache old_index force_rebuild rest

/-- The index record separator byte `b'\x1E'`. -/
def SEP : Char := '\x1E'

/-- `reader.read_until(b'\x1E', &mut buf)`: the chunk read (including the
separator, when found) and the remaining input. -/
def readUntilSep : List Char → List Char × List Char
  | [] => ([], [])
  | c :: cs =>
    if c = SEP then ([c], cs)
    else
      let p := readUntilSep cs
      (c :: p.1, p.2)

theorem readUntilSep_rest_le (l : List Char) :
    (readUntilSep l).2.length ≤ l.length := by
  induction l with
  | nil => simp [readUntilSep]
  | cons c cs ih =>
    simp only [readUntilSep]
    split
    · simp
    · simpa using Nat.le_succ_of_le ih

theorem readUntilSep_rest_lt (c : Char) (cs : List Char) :
    (readUntilSep (c :: cs)).2.length < (c :: cs).length := by
  simp only [readUntilSep]
  split
  · simp
  · simpa using Nat.lt_succ_of_le (readUntilSep_rest_le cs)

/-- Fuel-driven recursion for the read loop; the fuel dominates the number
of chunks so the definition stays structurally recursive. -/
def readIndexChunksGo (fuel : Nat) (l : List Char) : List (List Char) :=
  match fuel with
  | 0 => []
  | fuel + 1 =>
    match l with
    | [] => []
    | c :: cs =>
      (readUntilSep (c :: cs)).1 :: readIndexChunksGo fuel (readUntilSep (c :: cs)).2

/-- The chunks produced by the `while reader.read_until(...)? > 0` loop. -/
def readIndexChunks (l : List Char) : List (List Char) :=
  readIndexChunksGo l.length l

theorem readIndexChunksGo_congr {a b : Nat} {l : List Char}
    (h₁ : l.length ≤ a) (h₂ : l.length ≤ b) :
    readIndexChunksGo a l = readIndexChunksGo b l := by
  induction a generalizing b l with
  | zero =>
    have hl : l = [] := by
      cases l with
      | nil => rfl
      | cons c cs => simp at h₁
    subst hl
    cases b <;> rfl
  | succ g ih =>
    cases l with
    | nil => cases b <;> rfl
    | cons c cs =>
      cases b with
      | zero => simp at h₂
      | succ h =>
        have hrest := readUntilSep_rest_lt c cs
        simp only [List.length_cons] at h₁ h₂ hrest
        simp only [readIndexChunksGo]
        rw [ih (l := (readUntilSep (c :: cs)).2) (b := h) (by omega) (by omega)]

theorem readIndexChunks_nil : readIndexChunks [] = [] := rfl

theorem readIndexChunks_cons (c : Char) (cs : List Char) :
    readIndexChunks (c :: cs) =
      (readUntilSep (c :: cs)).1 :: readIndexChunks (readUntilSep (c :: cs)).2 := by
  have hrest := readUntilSep_rest_lt c cs
  simp only [List.length_cons] at hrest
  unfold readIndexChunks
  simp only [List.length_cons, readIndexChunksGo]
  rw [readIndexChunksGo_congr (l := (readUntilSep (c :: cs)).2)
    (b := (readUntilSep (c :: cs)).2.length) (by omega) le_rfl]

/-- `str::trim_end_matches('\x1E')`. -/
def trimEndSep (l : List Char) : List Char :=
  (l.reverse.dropWhile (· = SEP)).reverse

/-- Loading the persisted index record (`icons.rs` lines 242-250): read
separator-terminated chunks, trim the separator, insert into the set. -/
def loadIndexList (bytes : List Char) : List String :=
  (readIndexChunks bytes).foldl
    (fun acc ch => insertSet acc (trimEndSep ch).asString) []

/-- Byte-wise lexicographic comparison, as Rust's `&str` ordering. -/
def charsLe : List Char → List Char → Bool
  | [], _ => true
  | _ :: _, [] => false
  | a :: as, b :: bs => if a = b then charsLe as bs else decide (a < b)

/-- Sorting of the collected index entries before persisting. -/
def sortStrings (l : List String) : List String :=
  l.insertionSort (fun a b => charsLe a.toList b.toList = true)

/-- `intersperse("\x1E")` followed by flattening to bytes. -/
def joinSep : List (List Char) → List Char
  | [] => []
  | [x] => x
  | x :: y :: ys => x ++ SEP :: joinSep (y :: ys)

/-- The serialized index record: sorted entries, separator-interspersed. -/
def indexBytes (new_index : List String) : List Char :=
  joinSep ((sortStrings new_index).map String.toList)

/-- serde serialization of the kind list written to a per-type manifest. -/
def serializeKinds (ks : List IconKind) : String :=
  "[" ++ String.intercalate "," (ks.map (fun k => "\"" ++ IconKind.name k ++ "\"")) ++ "]"

/-- Name of the per-type manifest file in the web directory. -/
def jsonName (tid : Nat) : String := natRepr tid ++ ".json"

/-- Extension of a link in the web directory. -/
def kindExt (k : IconKind) : String := if k = .Render then "jpg" else "png"

/-- Name of a per-(type, kind) link in the web directory. -/
def linkName (tid : Nat) (k : IconKind) : String :=
  natRepr tid ++ "_" ++ k.name ++ "." ++ kindExt k

/-- `HashMap<String, String>::insert` on an association list. -/
def insertAssoc (m : List (String × String)) (k v : String) :
    List (String × String) :=
  match m with
  | [] => [(k, v)]
  | (k', v') :: rest =>
    if k' = k then (k, v) :: rest else (k', v') :: insertAssoc rest k v

/-- Web mode, one `(icon_kind, filename)` link of one type: create the link
unless the old index already mapped this name to this target. -/
def webLinkStep (force_rebuild : Bool) (old_links : List (String × String))
    (tid : Nat) (acc : List (String × String) × List Event)
    (entry : IconKind × String) : List (String × String) × List Event :=
  let ln := linkName tid entry.1
  let evs :=
    if force_rebuild || !(old_links.lookup ln = some entry.2 : Bool) then
      acc.2 ++ [.webCreateLink ln entry.2]
    else acc.2
  (insertAssoc acc.1 ln entry.2, evs)

/-- Web mode, one type: write its manifest unless unchanged, then its links. -/
def webTypeStep (force_rebuild : Bool) (old_links : List (String × String))
    (acc : List (String × String) × List Event)
    (entry : Nat × List (IconKind × String)) :
    List (String × String) × List Event :=
  let jn := jsonName entry.1
  let content := serializeKinds (entry.2.map Prod.fst)
  let evs :=
    if force_rebuild || !(old_links.lookup jn = some content : Bool) then
      acc.2 ++ [.webWriteManifest jn content]
    else acc.2
  entry.2.foldl (webLinkStep force_rebuild old_links entry.1)
    (insertAssoc acc.1 jn content, evs)

/-- Web mode main loop over `service_metadata`: accumulated created-files
map and emitted events. -/
def webFold (force_rebuild : Bool) (old_links : List (String × String))
    (meta : Meta) : List (String × String) × List Event :=
  meta.foldl (webTypeStep force_rebuild old_links) ([], [])

/-- The whole web publisher (`icons.rs` lines 513-576): manifests and links,
stale-entry cleanup, then the new link-index written. -/
def webPublish (force_rebuild : Bool) (old_links : List (String × String))
    (meta : Meta) : List Event :=
  let cf := webFold force_rebuild old_links meta
  cf.2
    ++ ((old_links.map Prod.fst).filter
          (fun e => !(cf.1.map Prod.fst).contains e)).map Event.webRemoveStale
    ++ [.webWriteLinkIndex cf.1]

/-- The iteration order of a Rust `HashMap` is unspecified (`RandomState`
seeds it per process), so the order in which `icons.keys()` is serialized
into a manifest (`icons.rs` line 529) and in which the subsequent
`for (icon_kind, filename) in icons` loop walks the entries is an arbitrary
permutation of each per-type kind map that can differ between two runs.  A
run's orders are modelled by an explicit reordering applied to every
per-type entry list; an admissible order is any permutation.  (The outer
`service_metadata` iteration order is also arbitrary, but the per-type keys
are pairwise distinct, so it only permutes independent per-type event
groups and association-list entries that are always consumed by lookup.) -/
def applyOrd (ord : Nat → List (IconKind × String) → List (IconKind × String))
    (meta : Meta) : Meta :=
  meta.map (fun e => (e.1, ord e.1 e.2))

/-- The old index: loaded from the `cache.csv` bytes when the file exists,
else empty. -/
def loadOldIndex : Option (List Char) → List String
  | none => []
  | some bytes => loadIndexList bytes

/-- The full `build_icon_export` run.  Filesystem inputs are explicit:
`index_csv` is the content of `cache.csv` when it exists, `web_index` the
parsed content of the web directory's `index.json` when it exists, and
`ord` is this run's `HashMap` iteration order for each per-type kind map
(see `applyOrd`).  Returns the event trace and the
`Result<(added, removed)>`. -/
def build_icon_export (output_mode : OutputMode) (skip_output_if_fresh : Bool)
    (data : IconBuildData) (cache : CacheModel)
    (index_csv : Option (List Char))
    (web_index : Option (List (String × String)))
    (ord : Nat → List (IconKind × String) → List (IconKind × String))
    (force_rebuild : Bool) : List Event × Except IconErr (Nat × Nat) :=
  let old_index := loadOldIndex index_csv
  match processTypes data cache old_index force_rebuild data.types
      { meta := [], new_index := [], events := [] } with
  | (.error e, st) => (st.events, .error e)
  | (.ok _, st) =>
    let index_bytes := indexBytes st.new_index
    let to_remove := old_index.filter (fun k => !st.new_index.contains k)
    let to_add := st.new_index.filter (fun k => !old_index.contains k)
    let outputEvents :=
      if to_add.length = 0 ∧ to_remove.length = 0 ∧ skip_output_if_fresh then
        []
      else
        match output_mode with
        | .serviceBundle _ => [.publishServiceBundle]
        | .iec _ => [.publishIEC]
        | .web _ _ _ => webPublish force_rebuild (web_index.getD [])
            (applyOrd ord st.meta)
        | .checksum (some _) => [.writeChecksumFile index_bytes]
        | .checksum none => [.printChecksum index_bytes]
    (st.events ++ [.writeIndexFile index_bytes] ++ outputEvents
      ++ to_remove.map Event.removeCachedFile,
     .ok (to_add.length, to_remove.length))

/-! ### Predicates used to state the claims -/

/-- Events that execute a compositing or copy recipe. -/
def isRecipeEvent : Event → Bool
  | .compositeTech _ _ _ => true
  | .compositeBlueprint _ _ _ _ _ => true
  | .copyOrConvert _ _ _ _ => true
  | _ => false

/-- Events that materialize an output (publishing, web-directory mutation,
checksum emission). -/
def isOutputEvent : Event → Bool
  | .publishServiceBundle => true
  | .publishIEC => true
  | .webWriteManifest _ _ => true
  | .webCreateLink _ _ => true
  | .webRemoveStale _ => true
  | .webWriteLinkIndex _ => true
  | .writeChecksumFile _ => true
  | .printChecksum _ => true
  | _ => false

/-- Web-directory mutations: per-type manifest writes, link creation, and
stale-entry removal (rewriting the link index itself is not a mutation of
the served entries). -/
def isWebMutationEvent : Event → Bool
  | .webWriteManifest _ _ => true
  | .webCreateLink _ _ => true
  | .webRemoveStale _ => true
  | _ => false

/-- Join filename fields with the `';'` separator. -/
def joinFields : List String → String
  | [] => ""
  | [x] => x
  | x :: y :: ys => x ++ ";" ++ joinFields (y :: ys)

/-- The canonical form of a cache filename: an optional recipe discriminator
tag, the `';'`-separated hash fields, and the extension.  Identical inputs
yield the identical filename by construction. -/
def iconFilename (tag : Option String) (fields : List String) (ext : String) :
    String :=
  joinFields (tag.toList ++ fields) ++ ext

/-- `h` is a content hash exposed by the resource store. -/
def HashVal (cache : CacheModel) (h : String) : Prop :=
  ∃ r, cache.hash_of r = some h

/-- Shape catalogue of every filename the classification loop registers:
tagged blueprint/reaction/relic composites carry a discriminator tag and,
for the icon-fallback recipes, a possibly-empty overlay hash field; regular
icons and renders are hash fields only. -/
inductive GoodName (cache : CacheModel) : String → Prop
  | tagged2 (tag h t : String) :
      tag ∈ (["bp", "bpc", "relic", "reaction"] : List String) →
      HashVal cache h → (t = "" ∨ HashVal cache t) →
      GoodName cache (iconFilename (some tag) [h, t] ".png")
  | tagged1 (tag h : String) : tag ∈ (["bp", "bpc"] : List String) →
      HashVal cache h → GoodName cache (iconFilename (some tag) [h] ".png")
  | plain2 (h t : String) : HashVal cache h → HashVal cache t →
      GoodName cache (iconFilename none [h, t] ".png")
  | plain1 (h : String) : HashVal cache h →
      GoodName cache (iconFilename none [h] ".png")
  | render (h : String) : HashVal cache h →
      GoodName cache (iconFilename none [h] ".jpg")

/-- Well-formedness of the `service_metadata` map: distinct type-id keys
with distinct kind keys inside (the `HashMap` invariant). -/
def MetaWF (m : Meta) : Prop :=
  (m.map Prod.fst).Nodup ∧ ∀ p ∈ m, (p.2.map Prod.fst).Nodup

/-- How one loop step may transform the run state: the new index grows by
well-shaped filenames through `HashSet` inserts, the trace grows only by
recipe events, and metadata well-formedness is preserved. -/
structure Grows (cache : CacheModel) (st s : RunState) : Prop where
  new_eq : ∃ fnames : List String, (∀ f ∈ fnames, GoodName cache f) ∧
      s.new_index = fnames.foldl insertSet st.new_index
  ev_eq : ∃ evs : List Event, (∀ e ∈ evs, isRecipeEvent e = true) ∧
      s.events = st.events ++ evs
  wf : MetaWF st.meta → MetaWF s.meta

/-! ### Basic lemmas: the monad, set and map operations -/

theorem pure_apply {α : Type} (a : α) (st : RunState) :
    (pure a : IconM α) st = (.ok a, st) := rfl

theorem bind_apply {α β : Type} (x : IconM α) (f : α → IconM β) (st : RunState) :
    (x >>= f) st =
      match x st with
      | (.ok a, s) => f a s
      | (.error e, s) => (.error e, s) := rfl

theorem liftE_apply {α : Type} (e : Except IconErr α) (st : RunState) :
    liftE e st = (e, st) := rfl

theorem recordMeta_apply (type_id : Nat) (kinds : List IconKind)
    (filename : String) (st : RunState) :
    recordMeta type_id kinds filename st =
      (.ok (), { st with
        meta := kinds.foldl (fun m k => metaInsert m type_id k filename) st.meta }) := rfl

theorem mem_insertSet {l : List String} {x y : String} :
    x ∈ insertSet l y ↔ x = y ∨ x ∈ l := by
  unfold insertSet
  by_cases hy : y ∈ l
  · simp only [if_pos hy]
    constructor
    · exact fun h => .inr h
    · rintro (rfl | h)
      · exact hy
      · exact h
  · simp only [if_neg hy]
    simp [or_comm]

theorem self_mem_insertSet (l : List String) (y : String) : y ∈ insertSet l y :=
  mem_insertSet.mpr (.inl rfl)

theorem subset_insertSet (l : List String) (y : String) : l ⊆ insertSet l y :=
  fun _ h => mem_insertSet.mpr (.inr h)

theorem nodup_insertSet {l : List String} (h : l.Nodup) (y : String) :
    (insertSet l y).Nodup := by
  unfold insertSet
  split
  · exact h
  · next hy => simp [List.nodup_append, h, hy]

theorem subset_foldl_insertSet (fnames : List String) (l : List String) :
    l ⊆ fnames.foldl insertSet l := by
  induction fnames generalizing l with
  | nil => exact fun _ h => h
  | cons f fs ih =>
    exact fun x hx => ih (insertSet l f) (subset_insertSet l f hx)

theorem mem_foldl_insertSet {fnames : List String} {l : List String} {x : String}
    (h : x ∈ fnames.foldl insertSet l) : x ∈ l ∨ x ∈ fnames := by
  induction fnames generalizing l with
  | nil => exact .inl h
  | cons f fs ih =>
    rcases ih (l := insertSet l f) h with h' | h'
    · rcases mem_insertSet.mp h' with rfl | h''
      · exact .inr (List.mem_cons_self _ _)
      · exact .inl h''
    · exact .inr (List.mem_cons_of_mem _ h')

theorem nodup_foldl_insertSet {fnames : List String} {l : List String}
    (h : l.Nodup) : (fnames.foldl insertSet l).Nodup := by
  induction fnames generalizing l with
  | nil => exact h
  | cons f fs ih => exact ih (nodup_insertSet h f)

theorem kindInsert_keys (m : List (IconKind × String)) (k : IconKind) (v : String) :
    (kindInsert m k v).map Prod.fst =
      if k ∈ m.map Prod.fst then m.map Prod.fst else m.map Prod.fst ++ [k] := by
  induction m with
  | nil => simp [kindInsert]
  | cons p rest ih =>
    obtain ⟨k', v'⟩ := p
    by_cases hk : k' = k
    · subst hk; simp [kindInsert]
    · simp only [kindInsert, if_neg hk, List.map_cons, ih]
      by_cases hmem : k ∈ rest.map Prod.fst
      · simp [hmem, Ne.symm hk]
      · simp [hmem, Ne.symm hk]

theorem kindInsert_keys_nodup {m : List (IconKind × String)}
    (h : (m.map Prod.fst).Nodup) (k : IconKind) (v : String) :
    ((kindInsert m k v).map Prod.fst).Nodup := by
  rw [kindInsert_keys]
  split
  · exact h
  · next hk => simp [List.nodup_append, h, hk]

theorem metaInsert_keys (m : Meta) (tid : Nat) (k : IconKind) (v : String) :
    (metaInsert m tid k v).map Prod.fst =
      if tid ∈ m.map Prod.fst then m.map Prod.fst else m.map Prod.fst ++ [tid] := by
  induction m with
  | nil => simp [metaInsert]
  | cons p rest ih =>
    obtain ⟨t, icons⟩ := p
    by_cases ht : t = tid
    · subst ht; simp [metaInsert]
    · simp only [metaInsert, if_neg ht, List.map_cons, ih]
      by_cases hmem : tid ∈ rest.map Prod.fst
      · simp [hmem, Ne.symm ht]
      · simp [hmem, Ne.symm ht]

theorem mem_metaInsert {m : Meta} {tid : Nat} {k : IconKind} {v : String}
    {p : Nat × List (IconKind × String)} (h : p ∈ metaInsert m tid k v) :
    p ∈ m ∨ (∃ icons, (tid, icons) ∈ m ∧ p = (tid, kindInsert icons k v))
      ∨ p = (tid, [(k, v)]) := by
  induction m with
  | nil =>
    simp only [metaInsert, List.mem_singleton] at h
    exact .inr (.inr h)
  | cons q rest ih =>
    obtain ⟨t, icons⟩ := q
    by_cases ht : t = tid
    · rw [show metaInsert ((t, icons) :: rest) tid k v
          = (t, kindInsert icons k v) :: rest by simp [metaInsert, ht]] at h
      rcases List.mem_cons.mp h with h | h
      · subst ht; exact .inr (.inl ⟨icons, List.mem_cons_self _ _, h⟩)
      · exact .inl (List.mem_cons_of_mem _ h)
    · rw [show metaInsert ((t, icons) :: rest) tid k v
          = (t, icons) :: metaInsert rest tid k v by simp [metaInsert, ht]] at h
      rcases List.mem_cons.mp h with h | h
      · exact .inl (by simp [h])
      · rcases ih h with h' | ⟨icons', hmem, he⟩ | h'
        · exact .inl (List.mem_cons_of_mem _ h')
        · exact .inr (.inl ⟨icons', List.mem_cons_of_mem _ hmem, he⟩)
        · exact .inr (.inr h')

theorem metaInsert_wf {m : Meta} (h : MetaWF m) (tid : Nat) (k : IconKind)
    (v : String) : MetaWF (metaInsert m tid k v) := by
  obtain ⟨hkeys, hinner⟩ := h
  constructor
  · rw [metaInsert_keys]
    split
    · exact hkeys
    · next ht => simp [List.nodup_append, hkeys, ht]
  · intro p hp
    rcases mem_metaInsert hp with h' | ⟨icons, hmem, he⟩ | he
    · exact hinner p h'
    · rw [he]; exact kindInsert_keys_nodup (hinner _ hmem) k v
    · rw [he]; simp

theorem foldl_metaInsert_wf {kinds : List IconKind} {m : Meta}
    (h : MetaWF m) (tid : Nat) (v : String) :
    MetaWF (kinds.foldl (fun m k => metaInsert m tid k v) m) := by
  induction kinds generalizing m with
  | nil => exact h
  | cons k ks ih => exact ih (metaInsert_wf h tid k v)

theorem Grows.same (cache : CacheModel) (st : RunState) : Grows cache st st :=
  ⟨⟨[], by simp, rfl⟩, ⟨[], by simp, by simp⟩, id⟩

theorem Grows.comp {cache : CacheModel} {st s₁ s₂ : RunState}
    (g1 : Grows cache st s₁) (g2 : Grows cache s₁ s₂) : Grows cache st s₂ := by
  obtain ⟨⟨f1, hf1, e1⟩, ⟨v1, hv1, ev1⟩, w1⟩ := g1
  obtain ⟨⟨f2, hf2, e2⟩, ⟨v2, hv2, ev2⟩, w2⟩ := g2
  refine ⟨⟨f1 ++ f2, ?_, ?_⟩, ⟨v1 ++ v2, ?_, ?_⟩, fun h => w2 (w1 h)⟩
  · intro f hf
    rcases List.mem_append.mp hf with h | h
    · exact hf1 f h
    · exact hf2 f h
  · rw [e2, e1, List.foldl_append]
  · intro e he
    rcases List.mem_append.mp he with h | h
    · exact hv1 e h
    · exact hv2 e h
  · rw [ev2, ev1, List.append_assoc]

/-- Closed form of one `cacheSite` application. -/
theorem cacheSite_apply (old_index : List String) (force_rebuild : Bool)
    (type_id : Nat) (kinds : List IconKind) (fnameE : Except IconErr String)
    (recipeE : String → Except IconErr Event) (st : RunState) :
    cacheSite old_index force_rebuild type_id kinds fnameE recipeE st =
      match fnameE with
      | .error e => (.error e, st)
      | .ok fn =>
        let st' := { st with
          meta := kinds.foldl (fun m k => metaInsert m type_id k fn) st.meta }
        let st'' := { st' with new_index := insertSet st'.new_index fn }
        if old_index.contains fn && !force_rebuild then (.ok (), st'')
        else
          match recipeE fn with
          | .ok ev => (.ok (), { st'' with events := st''.events ++ [ev] })
          | .error e => (.error e, st'') := by
  cases fnameE <;> rfl

theorem cacheSite_grows {cache : CacheModel} {old_index : List String}
    {force_rebuild : Bool} {type_id : Nat} {kinds : List IconKind}
    {fnameE : Except IconErr String} {recipeE : String → Except IconErr Event}
    {st : RunState} {out : Except IconErr Unit × RunState}
    (hgood : ∀ fn, fnameE = .ok fn → GoodName cache fn)
    (hrec : ∀ fn ev, recipeE fn = .ok ev → isRecipeEvent ev = true)
    (h : cacheSite old_index force_rebuild type_id kinds fnameE recipeE st = out) :
    Grows cache st out.2 := by
  rw [cacheSite_apply] at h
  cases hf : fnameE with
  | error e =>
    rw [hf] at h
    rw [← h]
    exact Grows.same cache st
  | ok fn =>
    rw [hf] at h
    simp only at h
    have hgn : GoodName cache fn := hgood fn hf
    split at h
    · rw [← h]
      exact ⟨⟨[fn], by simpa using hgn, by simp⟩, ⟨[], by simp, by simp⟩,
        fun hw => foldl_metaInsert_wf hw type_id fn⟩
    · split at h
      · next ev hev =>
        rw [← h]
        exact ⟨⟨[fn], by simpa using hgn, by simp⟩,
          ⟨[ev], by simpa using hrec fn ev hev, by simp⟩,
          fun hw => foldl_metaInsert_wf hw type_id fn⟩
      · rw [← h]
        exact ⟨⟨[fn], by simpa using hgn, by simp⟩, ⟨[], by simp, by simp⟩,
          fun hw => foldl_metaInsert_wf hw type_id fn⟩

theorem exceptBind_ok {α β : Type} {x : Except IconErr α}
    {f : α → Except IconErr β} {b : β} (h : (x >>= f) = .ok b) :
    ∃ a, x = .ok a ∧ f a = .ok b := by
  cases x with
  | error e => simp [Bind.bind, Except.bind] at h
  | ok a => exact ⟨a, rfl, by simpa [Bind.bind, Except.bind] using h⟩

theorem hashOfE_ok {cache : CacheModel} {r h : String}
    (hh : hashOfE cache r = .ok h) : cache.hash_of r = some h := by
  unfold hashOfE at hh
  split at hh <;> simp_all

theorem hashOfOptE_ok {cache : CacheModel} {o : Option String} {t : Option String}
    (h : hashOfOptE cache o = .ok t) :
    t.getD "" = "" ∨ HashVal cache (t.getD "") := by
  cases o with
  | none =>
    simp only [hashOfOptE, Except.ok.injEq] at h
    rw [← h]
    exact .inl rfl
  | some r =>
    cases hh : cache.hash_of r with
    | none => simp [hashOfOptE, hashOfE, hh, Except.map] at h
    | some v =>
      simp only [hashOfOptE, hashOfE, hh, Except.map, Except.ok.injEq] at h
      rw [← h]
      exact .inr ⟨r, hh⟩

theorem GoodName.tag2 (cache : CacheModel) (tag h t : String)
    (htag : tag ∈ (["bp", "bpc", "relic", "reaction"] : List String))
    (hh : HashVal cache h) (ht : t = "" ∨ HashVal cache t) :
    GoodName cache (tag ++ ";" ++ h ++ ";" ++ t ++ ".png") := by
  have h2 := @GoodName.tagged2 cache tag h t htag hh ht
  simpa [iconFilename, joinFields, String.append_assoc] using h2

theorem GoodName.tag1 (cache : CacheModel) (tag h : String)
    (htag : tag ∈ (["bp", "bpc"] : List String)) (hh : HashVal cache h) :
    GoodName cache (tag ++ ";" ++ h ++ ".png") := by
  have h2 := @GoodName.tagged1 cache tag h htag hh
  simpa [iconFilename, joinFields, String.append_assoc] using h2

theorem GoodName.untagged2 (cache : CacheModel) (h t : String)
    (hh : HashVal cache h) (ht : HashVal cache t) :
    GoodName cache (h ++ ";" ++ t ++ ".png") := by
  have h2 := @GoodName.plain2 cache h t hh ht
  simpa [iconFilename, joinFields, String.append_assoc] using h2

theorem GoodName.untagged1 (cache : CacheModel) (h : String)
    (hh : HashVal cache h) : GoodName cache (h ++ ".png") := by
  have h2 := @GoodName.plain1 cache h hh
  simpa [iconFilename, joinFields] using h2

theorem GoodName.renderName (cache : CacheModel) (h : String)
    (hh : HashVal cache h) : GoodName cache (h ++ ".jpg") := by
  have h2 := @GoodName.render cache h hh
  simpa [iconFilename, joinFields] using h2

/-- Every state transformation of the program grows the state as `Grows`. -/
def GrowsProg (cache : CacheModel) (x : IconM Unit) : Prop :=
  ∀ st out, x st = out → Grows cache st out.2

theorem GrowsProg.mono {cache : CacheModel} {x : IconM Unit}
    (h : GrowsProg cache x) {st : RunState} {r : Except IconErr Unit}
    {s : RunState} (hx : x st = (r, s)) : st.new_index ⊆ s.new_index := by
  obtain ⟨⟨f, -, he⟩, -, -⟩ := h st (r, s) hx
  have he' : s.new_index = f.foldl insertSet st.new_index := he
  rw [he']
  exact subset_foldl_insertSet f st.new_index

theorem growsProg_pure (cache : CacheModel) : GrowsProg cache (pure ()) := by
  intro st out h
  rw [pure_apply] at h
  rw [← h]
  exact Grows.same cache st

theorem growsProg_seq {cache : CacheModel} {x k : IconM Unit}
    (hx : GrowsProg cache x) (hk : GrowsProg cache k) :
    GrowsProg cache (x >>= fun _ => k) := by
  intro st out h
  rw [bind_apply] at h
  cases hxs : x st with
  | mk r s =>
    rw [hxs] at h
    cases r with
    | ok a => exact (hx st _ hxs).comp (hk s out h)
    | error e =>
      rw [← h]
      exact hx st _ hxs

theorem growsProg_cacheSite {cache : CacheModel} {old_index : List String}
    {force_rebuild : Bool} {type_id : Nat} {kinds : List IconKind}
    {fnameE : Except IconErr String} {recipeE : String → Except IconErr Event}
    (hgood : ∀ fn, fnameE = .ok fn → GoodName cache fn)
    (hrec : ∀ fn ev, recipeE fn = .ok ev → isRecipeEvent ev = true) :
    GrowsProg cache (cacheSite old_index force_rebuild type_id kinds fnameE recipeE) :=
  fun _ _ h => cacheSite_grows hgood hrec h

/-- The simulation pairing: when the left program completes from `st₁` and
every filename it leaves in the new index is in `old₂`, the right program
(the same code against old index `old₂` and no forced rebuild) completes
with the same metadata and new index and performs no effect. -/
def SimPair (old₂ : List String) (x₁ x₂ : IconM Unit) : Prop :=
  ∀ st₁ s₁ st₂, x₁ st₁ = (.ok (), s₁) →
    st₂.meta = st₁.meta → st₂.new_index = st₁.new_index →
    (∀ f ∈ s₁.new_index, f ∈ old₂) →
    x₂ st₂ = (.ok (), { meta := s₁.meta, new_index := s₁.new_index,
                        events := st₂.events })

theorem simPair_pure (old₂ : List String) : SimPair old₂ (pure ()) (pure ()) := by
  intro st₁ s₁ st₂ h hm hn _
  rw [pure_apply] at h ⊢
  have hs : st₁ = s₁ := congrArg Prod.snd h
  rw [← hs, ← hm, ← hn]

theorem simPair_seq {old₂ : List String} {x₁ x₂ k₁ k₂ : IconM Unit}
    {c : CacheModel}
    (hx : SimPair old₂ x₁ x₂) (hk : SimPair old₂ k₁ k₂)
    (hkg : GrowsProg c k₁) :
    SimPair old₂ (x₁ >>= fun _ => k₁) (x₂ >>= fun _ => k₂) := by
  intro st₁ s₁ st₂ h hm hn hsub
  rw [bind_apply] at h ⊢
  cases hx1 : x₁ st₁ with
  | mk r m₁ =>
    rw [hx1] at h
    cases r with
    | error e => simp at h
    | ok a =>
      have hsub₁ : ∀ f ∈ m₁.new_index, f ∈ old₂ :=
        fun f hf => hsub f (hkg.mono h hf)
      rw [hx st₁ m₁ st₂ hx1 hm hn hsub₁]
      exact hk m₁ s₁ _ h rfl rfl hsub

theorem cacheSite_sim {old₁ old₂ : List String} {f₁ : Bool} {type_id : Nat}
    {kinds : List IconKind} {fnameE : Except IconErr String}
    {recipeE : String → Except IconErr Event} {st₁ s₁ st₂ : RunState}
    (h₁ : cacheSite old₁ f₁ type_id kinds fnameE recipeE st₁ = (.ok (), s₁))
    (hmeta : st₂.meta = st₁.meta) (hnew : st₂.new_index = st₁.new_index)
    (hold : ∀ x ∈ s₁.new_index, x ∈ old₂) :
    cacheSite old₂ false type_id kinds fnameE recipeE st₂ =
      (.ok (), { meta := s₁.meta, new_index := s₁.new_index,
                 events := st₂.events }) := by
  rw [cacheSite_apply] at h₁ ⊢
  cases hf : fnameE with
  | error e => rw [hf] at h₁; simp at h₁
  | ok fn =>
    rw [hf] at h₁
    simp only at h₁ ⊢
    have hmn : s₁.meta = kinds.foldl (fun m k => metaInsert m type_id k fn) st₁.meta
        ∧ s₁.new_index = insertSet st₁.new_index fn := by
      split at h₁
      · rw [← (Prod.mk.injEq .. |>.mp h₁).2]; exact ⟨rfl, rfl⟩
      · split at h₁
        · rw [← (Prod.mk.injEq .. |>.mp h₁).2]; exact ⟨rfl, rfl⟩
        · simp at h₁
    have hfn : fn ∈ old₂ := hold fn (hmn.2 ▸ self_mem_insertSet _ _)
    have hcontains : (old₂.contains fn && !false) = true := by
      simp [List.elem_eq_mem, hfn]
    rw [if_pos hcontains]
    simp only [hmeta, hnew, Prod.mk.injEq, true_and]
    rw [hmn.1, hmn.2]

theorem simPair_cacheSite {old₁ old₂ : List String} {f₁ : Bool} {type_id : Nat}
    {kinds : List IconKind} {fnameE : Except IconErr String}
    {recipeE : String → Except IconErr Event} :
    SimPair old₂ (cacheSite old₁ f₁ type_id kinds fnameE recipeE)
      (cacheSite old₂ false type_id kinds fnameE recipeE) :=
  fun _ _ _ h hm hn hsub => cacheSite_sim h hm hn hsub

theorem growsProg_liftE_bind {cache : CacheModel} {α : Type}
    {e : Except IconErr α} {k : α → IconM Unit}
    (hk : ∀ a, GrowsProg cache (k a)) : GrowsProg cache (liftE e >>= k) := by
  intro st out h
  rw [bind_apply, liftE_apply] at h
  cases e with
  | error ε =>
    rw [← h]
    exact Grows.same cache st
  | ok a => exact hk a st out h

theorem simPair_liftE_bind {old₂ : List String} {α : Type}
    {e : Except IconErr α} {k₁ k₂ : α → IconM Unit}
    (hk : ∀ a, SimPair old₂ (k₁ a) (k₂ a)) :
    SimPair old₂ (liftE e >>= k₁) (liftE e >>= k₂) := by
  intro st₁ s₁ st₂ h hm hn hsub
  rw [bind_apply, liftE_apply] at h ⊢
  cases e with
  | error ε => simp at h
  | ok a => exact hk a st₁ s₁ st₂ h hm hn hsub

/-! Filename goodness and recipe shape of every `cacheSite` call site. -/

theorem good_fname_tag2 {cache : CacheModel} (tag : String) (r1 r2 : String)
    (htag : tag ∈ (["bp", "bpc", "relic", "reaction"] : List String)) :
    ∀ fn, (do
      let h1 ← hashOfE cache r1
      let h2 ← hashOfE cache r2
      Except.ok (tag ++ ";" ++ h1 ++ ";" ++ h2 ++ ".png")) = .ok fn →
      GoodName cache fn := by
  intro fn h
  obtain ⟨h1, hh1, h⟩ := exceptBind_ok h
  obtain ⟨h2, hh2, h⟩ := exceptBind_ok h
  cases h
  exact GoodName.tag2 cache tag h1 h2 htag ⟨_, hashOfE_ok hh1⟩
    (.inr ⟨_, hashOfE_ok hh2⟩)

theorem good_fname_tag1 {cache : CacheModel} (tag : String) (r1 : String)
    (htag : tag ∈ (["bp", "bpc"] : List String)) :
    ∀ fn, (do
      let h1 ← hashOfE cache r1
      Except.ok (tag ++ ";" ++ h1 ++ ".png")) = .ok fn → GoodName cache fn := by
  intro fn h
  obtain ⟨h1, hh1, h⟩ := exceptBind_ok h
  cases h
  exact GoodName.tag1 cache tag h1 htag ⟨_, hashOfE_ok hh1⟩

theorem good_fname_tagOpt {cache : CacheModel} (tag : String) (r1 : String)
    (o : Option String)
    (htag : tag ∈ (["bp", "bpc", "relic", "reaction"] : List String)) :
    ∀ fn, (do
      let h ← hashOfE cache r1
      let t ← hashOfOptE cache o
      Except.ok (tag ++ ";" ++ h ++ ";" ++ t.getD "" ++ ".png")) = .ok fn →
      GoodName cache fn := by
  intro fn h
  obtain ⟨h1, hh1, h⟩ := exceptBind_ok h
  obtain ⟨t, hht, h⟩ := exceptBind_ok h
  cases h
  exact GoodName.tag2 cache tag h1 (t.getD "") htag ⟨_, hashOfE_ok hh1⟩
    (hashOfOptE_ok hht)

theorem good_fname_plain2 {cache : CacheModel} (r1 r2 : String) :
    ∀ fn, (do
      let h1 ← hashOfE cache r1
      let h2 ← hashOfE cache r2
      Except.ok (h1 ++ ";" ++ h2 ++ ".png")) = .ok fn → GoodName cache fn := by
  intro fn h
  obtain ⟨h1, hh1, h⟩ := exceptBind_ok h
  obtain ⟨h2, hh2, h⟩ := exceptBind_ok h
  cases h
  exact GoodName.untagged2 cache h1 h2 ⟨_, hashOfE_ok hh1⟩ ⟨_, hashOfE_ok hh2⟩

theorem good_fname_plain1 {cache : CacheModel} (r1 : String) :
    ∀ fn, (do
      let h1 ← hashOfE cache r1
      Except.ok (h1 ++ ".png")) = .ok fn → GoodName cache fn := by
  intro fn h
  obtain ⟨h1, hh1, h⟩ := exceptBind_ok h
  cases h
  exact GoodName.untagged1 cache h1 ⟨_, hashOfE_ok hh1⟩

theorem good_fname_render {cache : CacheModel} (r1 : String) :
    ∀ fn, (do
      let h1 ← hashOfE cache r1
      Except.ok (h1 ++ ".jpg")) = .ok fn → GoodName cache fn := by
  intro fn h
  obtain ⟨h1, hh1, h⟩ := exceptBind_ok h
  cases h
  exact GoodName.renderName cache h1 ⟨_, hashOfE_ok hh1⟩

theorem rec_tech {cache : CacheModel} (r1 r2 : String) :
    ∀ (fn : String) (ev : Event), (do
      let p1 ← pathOfE cache r1
      let p2 ← pathOfE cache r2
      Except.ok (Event.compositeTech p1 p2 fn)) = .ok ev →
      isRecipeEvent ev = true := by
  intro fn ev h
  obtain ⟨p1, -, h⟩ := exceptBind_ok h
  obtain ⟨p2, -, h⟩ := exceptBind_ok h
  cases h
  rfl

theorem rec_copy {cache : CacheModel} (r res ext : String) :
    ∀ (fn : String) (ev : Event), (do
      let p ← pathOfE cache r
      Except.ok (Event.copyOrConvert p fn res ext)) = .ok ev →
      isRecipeEvent ev = true := by
  intro fn ev h
  obtain ⟨p, -, h⟩ := exceptBind_ok h
  cases h
  rfl

theorem rec_blueprint {cache : CacheModel} (rb ro ri : String)
    (o : Option String) :
    ∀ (fn : String) (ev : Event), (do
      let bg ← pathOfE cache rb
      let ov ← pathOfE cache ro
      let ic ← pathOfE cache ri
      let tp ← pathOfOptE cache o
      Except.ok (Event.compositeBlueprint bg ov ic tp fn)) = .ok ev →
      isRecipeEvent ev = true := by
  intro fn ev h
  obtain ⟨bg, -, h⟩ := exceptBind_ok h
  obtain ⟨ov, -, h⟩ := exceptBind_ok h
  obtain ⟨ic, -, h⟩ := exceptBind_ok h
  obtain ⟨tp, -, h⟩ := exceptBind_ok h
  cases h
  rfl

/-! Structural invariants and simulation for the loop body. -/

theorem growsProg_regularTail {cache : CacheModel} {old : List String}
    {force : Bool} {tid : Nat} {ti : TypeInfo} {res : String} :
    GrowsProg cache (regularTail cache old force tid ti res) := by
  unfold regularTail
  cases hc : cache.has_resource res with
  | false =>
    simp only [hc, Bool.false_eq_true, if_false]
    exact growsProg_pure cache
  | true =>
    simp only [hc, if_true]
    cases ht : techicon_resource_for_metagroup (ti.meta_group_id.getD 1) with
    | some techicon =>
      exact growsProg_cacheSite (good_fname_plain2 res techicon)
        (rec_tech res techicon)
    | none =>
      exact growsProg_cacheSite (good_fname_plain1 res)
        (rec_copy res res ".png")

theorem simPair_regularTail {cache : CacheModel} {old₁ old₂ : List String}
    {f₁ : Bool} {tid : Nat} {ti : TypeInfo} {res : String} :
    SimPair old₂ (regularTail cache old₁ f₁ tid ti res)
      (regularTail cache old₂ false tid ti res) := by
  unfold regularTail
  cases hc : cache.has_resource res with
  | false =>
    simp only [hc, Bool.false_eq_true, if_false]
    exact simPair_pure old₂
  | true =>
    simp only [hc, if_true]
    cases ht : techicon_resource_for_metagroup (ti.meta_group_id.getD 1) with
    | some techicon => exact simPair_cacheSite
    | none => exact simPair_cacheSite

theorem growsProg_processType {data : IconBuildData} {cache : CacheModel}
    {old : List String} {force : Bool} {tid : Nat} {ti : TypeInfo} :
    GrowsProg cache (processType data cache old force tid ti) := by
  unfold processType
  apply growsProg_liftE_bind
  intro category_id
  by_cases h1 : (ti.icon_id = none ∧ ti.graphic_id = none ∧ category_id ≠ 91)
  · simp only [if_pos h1]
    exact growsProg_pure cache
  · simp only [if_neg h1]
    by_cases h2 : (category_id = 9 ∨ category_id = 34)
    · simp only [if_pos h2]
      cases hg : ti.graphic_id.bind data.graphics_folders with
      | some folder =>
        simp only [hg]
        by_cases hbp : (cache.has_resource (trimEndSlashes folder ++ "/" ++ natRepr (ti.graphic_id.getD 0) ++ "_64_bp.png") = true ∧ ti.group_id ∉ USE_ICON_INSTEAD_OF_GRAPHIC_GROUPS)
        · simp only [if_pos hbp]
          cases ht : techicon_resource_for_metagroup (ti.meta_group_id.getD 1) with
          | some techicon =>
            apply growsProg_seq
            · exact growsProg_cacheSite (good_fname_tag2 "bp" _ _ (by simp)) (rec_tech _ _)
            · by_cases hbpc : (cache.has_resource (trimEndSlashes folder ++ "/" ++ natRepr (ti.graphic_id.getD 0) ++ "_64_bpc.png") = true)
              · simp only [if_pos hbpc]
                exact growsProg_cacheSite (good_fname_tag2 "bpc" _ _ (by simp)) (rec_tech _ _)
              · simp only [if_neg hbpc]
                exact growsProg_pure cache
          | none =>
            apply growsProg_seq
            · exact growsProg_cacheSite (good_fname_tag1 "bp" _ (by simp)) (rec_copy _ _ _)
            · by_cases hbpc : (cache.has_resource (trimEndSlashes folder ++ "/" ++ natRepr (ti.graphic_id.getD 0) ++ "_64_bpc.png") = true)
              · simp only [if_pos hbpc]
                exact growsProg_cacheSite (good_fname_tag1 "bpc" _ (by simp)) (rec_copy _ _ _)
              · simp only [if_neg hbpc]
                exact growsProg_pure cache
        · simp only [if_neg hbp]
          exact growsProg_pure cache
      | none =>
        simp only [hg]
        cases hi : ti.icon_id with
        | some icon =>
          simp only [hi]
          apply growsProg_liftE_bind
          intro icon_resource
          by_cases hr : (cache.has_resource icon_resource = true)
          · simp only [if_pos hr]
            by_cases h34 : (category_id = 34)
            · simp only [if_pos h34]
              exact growsProg_cacheSite (good_fname_tagOpt "relic" _ _ (by simp)) (rec_blueprint _ _ _ _)
            · simp only [if_neg h34]
              by_cases hreact : (ti.group_id ∈ REACTION_GROUPS)
              · simp only [if_pos hreact]
                exact growsProg_cacheSite (good_fname_tagOpt "reaction" _ _ (by simp)) (rec_blueprint _ _ _ _)
              · simp only [if_neg hreact]
                apply growsProg_seq
                · exact growsProg_cacheSite (good_fname_tagOpt "bp" _ _ (by simp)) (rec_blueprint _ _ _ _)
                · exact growsProg_cacheSite (good_fname_tagOpt "bpc" _ _ (by simp)) (rec_blueprint _ _ _ _)
          · simp only [if_neg hr]
            exact growsProg_pure cache
        | none =>
          simp only [hi]
          exact growsProg_pure cache
    · simp only [if_neg h2]
      cases hg : ti.graphic_id.bind data.graphics_folders with
      | some folder =>
        simp only [hg]
        apply growsProg_liftE_bind
        intro resolved
        cases resolved with
        | none => exact growsProg_pure cache
        | some icon_resource =>
          dsimp only
          by_cases hrr : (cache.has_resource (trimEndSlashes folder ++ "/" ++ natRepr (ti.graphic_id.getD 0) ++ "_512.jpg") = true)
          · simp only [if_pos hrr]
            apply growsProg_seq
            · exact growsProg_cacheSite (good_fname_render _) (rec_copy _ _ _)
            · exact growsProg_regularTail
          · simp only [if_neg hrr]
            exact growsProg_seq (growsProg_pure cache) growsProg_regularTail
      | none =>
        simp only [hg]
        cases hi : ti.icon_id with
        | some icon =>
          simp only [hi]
          apply growsProg_liftE_bind
          intro icon_resource
          exact growsProg_regularTail
        | none =>
          simp only [hi]
          by_cases h91 : (category_id = 91)
          · simp only [if_pos h91]
            cases hs : data.skin_materials tid with
            | some material_id =>
              simp only [hs]
              exact growsProg_regularTail
            | none =>
              simp only [hs]
              exact growsProg_pure cache
          · simp only [if_neg h91]
            exact growsProg_pure cache

theorem simPair_processType {data : IconBuildData} {cache : CacheModel}
    {old₁ old₂ : List String} {f₁ : Bool} {tid : Nat} {ti : TypeInfo} :
    SimPair old₂ (processType data cache old₁ f₁ tid ti)
      (processType data cache old₂ false tid ti) := by
  unfold processType
  apply simPair_liftE_bind
  intro category_id
  by_cases h1 : (ti.icon_id = none ∧ ti.graphic_id = none ∧ category_id ≠ 91)
  · simp only [if_pos h1]
    exact simPair_pure old₂
  · simp only [if_neg h1]
    by_cases h2 : (category_id = 9 ∨ category_id = 34)
    · simp only [if_pos h2]
      cases hg : ti.graphic_id.bind data.graphics_folders with
      | some folder =>
        simp only [hg]
        by_cases hbp : (cache.has_resource (trimEndSlashes folder ++ "/" ++ natRepr (ti.graphic_id.getD 0) ++ "_64_bp.png") = true ∧ ti.group_id ∉ USE_ICON_INSTEAD_OF_GRAPHIC_GROUPS)
        · simp only [if_pos hbp]
          cases ht : techicon_resource_for_metagroup (ti.meta_group_id.getD 1) with
          | some techicon =>
            by_cases hbpc : (cache.has_resource (trimEndSlashes folder ++ "/" ++ natRepr (ti.graphic_id.getD 0) ++ "_64_bpc.png") = true)
            · simp only [if_pos hbpc]
              exact simPair_seq (c := cache) simPair_cacheSite simPair_cacheSite
                (growsProg_cacheSite (good_fname_tag2 "bpc" _ _ (by simp)) (rec_tech _ _))
            · simp only [if_neg hbpc]
              exact simPair_seq (c := cache) simPair_cacheSite (simPair_pure old₂)
                (growsProg_pure cache)
          | none =>
            by_cases hbpc : (cache.has_resource (trimEndSlashes folder ++ "/" ++ natRepr (ti.graphic_id.getD 0) ++ "_64_bpc.png") = true)
            · simp only [if_pos hbpc]
              exact simPair_seq (c := cache) simPair_cacheSite simPair_cacheSite
                (growsProg_cacheSite (good_fname_tag1 "bpc" _ (by simp)) (rec_copy _ _ _))
            · simp only [if_neg hbpc]
              exact simPair_seq (c := cache) simPair_cacheSite (simPair_pure old₂)
                (growsProg_pure cache)
        · simp only [if_neg hbp]
          exact simPair_pure old₂
      | none =>
        simp only [hg]
        cases hi : ti.icon_id with
        | some icon =>
          simp only [hi]
          apply simPair_liftE_bind
          intro icon_resource
          by_cases hr : (cache.has_resource icon_resource = true)
          · simp only [if_pos hr]
            by_cases h34 : (category_id = 34)
            · simp only [if_pos h34]
              exact simPair_cacheSite
            · simp only [if_neg h34]
              by_cases hreact : (ti.group_id ∈ REACTION_GROUPS)
              · simp only [if_pos hreact]
                exact simPair_cacheSite
              · simp only [if_neg hreact]
                exact simPair_seq (c := cache) simPair_cacheSite simPair_cacheSite
                  (growsProg_cacheSite (good_fname_tagOpt "bpc" _ _ (by simp)) (rec_blueprint _ _ _ _))
          · simp only [if_neg hr]
            exact simPair_pure old₂
        | none =>
          simp only [hi]
          exact simPair_pure old₂
    · simp only [if_neg h2]
      cases hg : ti.graphic_id.bind data.graphics_folders with
      | some folder =>
        simp only [hg]
        apply simPair_liftE_bind
        intro resolved
        cases resolved with
        | none => exact simPair_pure old₂
        | some icon_resource =>
          dsimp only
          by_cases hrr : (cache.has_resource (trimEndSlashes folder ++ "/" ++ natRepr (ti.graphic_id.getD 0) ++ "_512.jpg") = true)
          · simp only [if_pos hrr]
            exact simPair_seq (c := cache) simPair_cacheSite simPair_regularTail
              growsProg_regularTail
          · simp only [if_neg hrr]
            exact simPair_seq (c := cache) (simPair_pure old₂) simPair_regularTail
              growsProg_regularTail
      | none =>
        simp only [hg]
        cases hi : ti.icon_id with
        | some icon =>
          simp only [hi]
          apply simPair_liftE_bind
          intro icon_resource
          exact simPair_regularTail
        | none =>
          simp only [hi]
          by_cases h91 : (category_id = 91)
          · simp only [if_pos h91]
            cases hs : data.skin_materials tid with
            | some material_id =>
              simp only [hs]
              exact simPair_regularTail
            | none =>
              simp only [hs]
              exact simPair_pure old₂
          · simp only [if_neg h91]
            exact simPair_pure old₂

theorem growsProg_processTypes {data : IconBuildData} {cache : CacheModel}
    {old : List String} {force : Bool} {ts : List (Nat × TypeInfo)} :
    GrowsProg cache (processTypes data cache old force ts) := by
  induction ts with
  | nil => exact growsProg_pure cache
  | cons p rest ih =>
    obtain ⟨tid, ti⟩ := p
    exact growsProg_seq growsProg_processType ih

theorem simPair_processTypes {data : IconBuildData} {cache : CacheModel}
    {old₁ old₂ : List String} {f₁ : Bool} {ts : List (Nat × TypeInfo)} :
    SimPair old₂ (processTypes data cache old₁ f₁ ts)
      (processTypes data cache old₂ false ts) := by
  induction ts with
  | nil => exact simPair_pure old₂
  | cons p rest ih =>
    obtain ⟨tid, ti⟩ := p
    exact simPair_seq (c := cache) simPair_processType ih growsProg_processTypes

/-- The initial run state of the loop. -/
def initState : RunState := { meta := [], new_index := [], events := [] }

theorem grows_init {data : IconBuildData} {cache : CacheModel}
    {old : List String} {force : Bool} {r : Except IconErr Unit} {s : RunState}
    (h : processTypes data cache old force data.types initState = (r, s)) :
    (∀ f ∈ s.new_index, GoodName cache f) ∧ s.new_index.Nodup ∧
      (∀ e ∈ s.events, isRecipeEvent e = true) ∧ MetaWF s.meta := by
  have hg := @growsProg_processTypes data cache old force data.types
    initState (r, s) h
  obtain ⟨⟨fnames, hfn, hne⟩, ⟨evs, hevs, hee⟩, hwf⟩ := hg
  have hne' : s.new_index = fnames.foldl insertSet initState.new_index := hne
  have hee' : s.events = initState.events ++ evs := hee
  refine ⟨?_, ?_, ?_, ?_⟩
  · intro f hf
    rw [hne'] at hf
    rcases mem_foldl_insertSet hf with h' | h'
    · simp [initState] at h'
    · exact hfn f h'
  · rw [hne']
    exact nodup_foldl_insertSet (by simp [initState])
  · intro e he
    rw [hee'] at he
    simp only [initState, List.nil_append] at he
    exact hevs e he
  · exact hwf (by simp [MetaWF, initState])

/-! ### Sample fixtures used by witnesses and counterexamples -/

/-- A regular item type (group 2, category 4) whose icon resource is
`"ic.png"` with content hash `"AB"` and no tech overlay. -/
def sampleData : IconBuildData where
  types := [(7, { group_id := 2, icon_id := some 3, graphic_id := none,
                  meta_group_id := none })]
  group_categories := fun g => if g = 2 then some 4 else none
  icon_files := fun i => if i = 3 then some "ic.png" else none
  graphics_folders := fun _ => none
  skin_materials := fun _ => none

/-- Resource store for `sampleData`. -/
def sampleCache : CacheModel where
  has_resource := fun r => r = "ic.png"
  hash_of := fun r => if r = "ic.png" then some "AB" else none
  path_of := fun r => if r = "ic.png" then some "/p/ic.png" else none

/-- Build data with no types at all. -/
def emptyData : IconBuildData where
  types := []
  group_categories := fun _ => none
  icon_files := fun _ => none
  graphics_folders := fun _ => none
  skin_materials := fun _ => none

/-- A resource store that knows nothing. -/
def emptyCache : CacheModel where
  has_resource := fun _ => false
  hash_of := fun _ => none
  path_of := fun _ => none

/-- A single type whose group id is missing from the category table:
classification fails fatally at the first type. -/
def badGroupData : IconBuildData where
  types := [(1, { group_id := 5, icon_id := none, graphic_id := none,
                  meta_group_id := none })]
  group_categories := fun _ => none
  icon_files := fun _ => none
  graphics_folders := fun _ => none
  skin_materials := fun _ => none

/-! ### Claim theorems -/

/-- C2: `is_up_to_date` always inserts the filename into the new index (the
set it returns), returns true exactly when the filename was in the old index
and no forced rebuild was requested; the old index, taken by shared
reference in the source and as a pure value here, is not modified. -/
theorem is_up_to_date_contract (old_index new_index : List String)
    (filename : String) (force_rebuild : Bool) :
    ((is_up_to_date old_index new_index filename force_rebuild).1 = true
      ↔ (filename ∈ old_index ∧ force_rebuild = false)) ∧
    (is_up_to_date old_index new_index filename force_rebuild).2
      = insertSet new_index filename := by
  refine ⟨?_, rfl⟩
  cases force_rebuild <;> simp [is_up_to_date, List.elem_eq_mem]

/-- C10: when the run fails with any fatal error (unknown group, unknown
icon id, failed resource resolution), every effect that did occur is a
recipe execution: the persisted index record is not rewritten, no cached
file is deleted, and no output is published. -/
theorem fatal_error_publishes_nothing (output_mode : OutputMode)
    (skip_output_if_fresh : Bool) (data : IconBuildData) (cache : CacheModel)
    (index_csv : Option (List Char)) (web_index : Option (List (String × String)))
    (ord : Nat → List (IconKind × String) → List (IconKind × String))
    (force_rebuild : Bool) (e : IconErr)
    (herr : (build_icon_export output_mode skip_output_if_fresh data cache
      index_csv web_index ord force_rebuild).2 = .error e) :
    ∀ ev ∈ (build_icon_export output_mode skip_output_if_fresh data cache
        index_csv web_index ord force_rebuild).1,
      isRecipeEvent ev = true ∧ isOutputEvent ev = false ∧
      (∀ b, ev ≠ .writeIndexFile b) ∧ (∀ f, ev ≠ .removeCachedFile f) := by
  simp only [build_icon_export] at herr ⊢
  cases hp : processTypes data cache (loadOldIndex index_csv) force_rebuild
      data.types initState with
  | mk r st =>
    rw [show ({ meta := [], new_index := [], events := [] } : RunState)
        = initState from rfl, hp] at herr ⊢
    cases r with
    | ok a => simp at herr
    | error e' =>
      intro ev hev
      have hrec : isRecipeEvent ev = true :=
        (grows_init hp).2.2.1 ev (by simpa using hev)
      refine ⟨hrec, ?_, ?_, ?_⟩ <;> cases ev <;> simp_all [isRecipeEvent, isOutputEvent]

/-- C10 witness: a concrete run that fails (group 5 has no category). -/
theorem fatal_error_publishes_nothing_witness :
    (build_icon_export (.checksum none) false badGroupData emptyCache
        none none (fun _ l => l) false).2
      = .error (.string ("group without category: " ++ natRepr 5)) ∧
    ∀ ev ∈ (build_icon_export (.checksum none) false badGroupData emptyCache
        none none (fun _ l => l) false).1,
      isRecipeEvent ev = true ∧ isOutputEvent ev = false ∧
      (∀ b, ev ≠ .writeIndexFile b) ∧ (∀ f, ev ≠ .removeCachedFile f) :=
  ⟨by rfl,
   fatal_error_publishes_nothing (.checksum none) false badGroupData emptyCache
     none none (fun _ l => l) false
     (.string ("group without category: " ++ natRepr 5)) (by rfl)⟩

/-- C6 counterexample: with `skip_output_if_fresh = true`, a fresh run in
`Checksum { out: None }` mode performs no output event at all — in
particular the digest is NOT printed to stdout (the skip branch covers
every mode, the source has no stdout exception). -/
theorem checksum_stdout_skipped_when_fresh :
    (build_icon_export (.checksum none) true emptyData emptyCache (some [])
      none (fun _ l => l) false).2 = .ok (0, 0) ∧
    ∀ ev ∈ (build_icon_export (.checksum none) true emptyData emptyCache
        (some []) none (fun _ l => l) false).1, isOutputEvent ev = false := by
  refine ⟨by rfl, ?_⟩
  decide

/-- C6 (amended): the skip-if-fresh flag is honored by every output mode,
including printing the checksum to stdout: whenever the run returns
`added = 0` and `removed = 0` with the flag set, no output materialization
event occurs. -/
theorem skip_if_fresh_skips_all_outputs (output_mode : OutputMode)
    (data : IconBuildData) (cache : CacheModel) (index_csv : Option (List Char))
    (web_index : Option (List (String × String)))
    (ord : Nat → List (IconKind × String) → List (IconKind × String))
    (force_rebuild : Bool) (tr : List Event)
    (h : build_icon_export output_mode true data cache index_csv web_index
      ord force_rebuild = (tr, .ok (0, 0))) :
    ∀ ev ∈ tr, isOutputEvent ev = false := by
  simp only [build_icon_export] at h
  cases hp : processTypes data cache (loadOldIndex index_csv) force_rebuild
      data.types initState with
  | mk r st =>
    rw [show ({ meta := [], new_index := [], events := [] } : RunState)
        = initState from rfl, hp] at h
    cases r with
    | error e => simp at h
    | ok a =>
      simp only [Prod.mk.injEq, Except.ok.injEq] at h
      obtain ⟨htr, hadd, hrem⟩ := h
      rw [← htr]
      intro ev hev
      rw [if_pos ⟨hadd, hrem, trivial⟩] at hev
      simp only [List.append_nil] at hev
      rcases List.mem_append.mp hev with hev | hev
      · rcases List.mem_append.mp hev with hev | hev
        · have := (grows_init hp).2.2.1 ev hev
          cases ev <;> simp_all [isRecipeEvent, isOutputEvent]
        · simp only [List.mem_singleton] at hev
          subst hev
          rfl
      · rw [List.length_eq_zero] at hrem
        rw [hrem] at hev
        simp at hev

/-- C6 amended-claim witness: a concrete fresh skip run (service bundle
mode) produces no output events. -/
theorem skip_if_fresh_skips_all_outputs_witness :
    isOutputEvent (Event.writeIndexFile []) = false ∧
    ∀ ev ∈ [Event.writeIndexFile []], isOutputEvent ev = false :=
  ⟨skip_if_fresh_skips_all_outputs (.serviceBundle "out.zip") emptyData
      emptyCache (some []) none (fun _ l => l) false [Event.writeIndexFile []]
      (by rfl) (Event.writeIndexFile []) (by decide),
   skip_if_fresh_skips_all_outputs (.serviceBundle "out.zip") emptyData
      emptyCache (some []) none (fun _ l => l) false [Event.writeIndexFile []]
      (by rfl)⟩

/-- C1: every filename the loop registers in the new index is the canonical
serialization `iconFilename` of its recipe discriminator and hash fields
(hashes exposed by the resource store, the empty overlay field standing for
"no tech overlay"); the index, a set, holds at most one entry per distinct
`(tag, fields, ext)` tuple; and the filename is a pure function of that
tuple — equal tuples always yield the identical filename. -/
theorem content_addressed_filenames (data : IconBuildData) (cache : CacheModel)
    (old_index : List String) (force_rebuild : Bool)
    (r : Except IconErr Unit) (s : RunState)
    (h : processTypes data cache old_index force_rebuild data.types initState
      = (r, s)) :
    (∀ f ∈ s.new_index, GoodName cache f) ∧
    (∀ tag fields ext, s.new_index.count (iconFilename tag fields ext) ≤ 1) ∧
    (∀ tag₁ fields₁ ext₁ tag₂ fields₂ ext₂, tag₁ = tag₂ → fields₁ = fields₂ →
      ext₁ = ext₂ →
      iconFilename tag₁ fields₁ ext₁ = iconFilename tag₂ fields₂ ext₂) := by
  obtain ⟨hgood, hnodup, -, -⟩ := grows_init h
  refine ⟨hgood, ?_, ?_⟩
  · intro tag fields ext
    exact List.nodup_iff_count_le_one.mp hnodup _
  · intro tag₁ fields₁ ext₁ tag₂ fields₂ ext₂ h1 h2 h3
    rw [h1, h2, h3]

/-- C1 witness: the sample run registers exactly `"AB.png"`. -/
theorem content_addressed_filenames_witness :
    (∀ f ∈ (processTypes sampleData sampleCache [] false sampleData.types
        initState).2.new_index, GoodName sampleCache f) ∧
    (∀ tag fields ext,
      (processTypes sampleData sampleCache [] false sampleData.types
        initState).2.new_index.count (iconFilename tag fields ext) ≤ 1) ∧
    (∀ tag₁ fields₁ ext₁ tag₂ fields₂ ext₂, tag₁ = tag₂ → fields₁ = fields₂ →
      ext₁ = ext₂ →
      iconFilename tag₁ fields₁ ext₁ = iconFilename tag₂ fields₂ ext₂) :=
  content_addressed_filenames sampleData sampleCache [] false _ _ rfl

theorem toList_append (a b : String) :
    (a ++ b).toList = a.toList ++ b.toList := rfl

/-- C5 counterexample: the filename registered for a regular item
(`"AB.png"`, the bare content hash plus extension) does not begin with any
recipe discriminator tag followed by `';'` — the claimed
`"<tag>;<hash1>;..."` format does not hold for every registered filename. -/
theorem regular_filename_has_no_tag :
    "AB.png" ∈ (processTypes sampleData sampleCache [] false sampleData.types
      initState).2.new_index ∧
    ¬ ∃ rest : String, "AB.png" = "bp" ++ ";" ++ rest
      ∨ "AB.png" = "bpc" ++ ";" ++ rest
      ∨ "AB.png" = "relic" ++ ";" ++ rest
      ∨ "AB.png" = "reaction" ++ ";" ++ rest := by
  constructor
  · decide
  · rintro ⟨rest, h | h | h | h⟩ <;>
    · have := congrArg String.toList h
      simp [toList_append] at this

/-- C5 (amended): every registered filename follows the shape catalogue
`GoodName`: blueprint/reaction/relic composites carry a discriminator tag,
and the empty overlay field keeping arity constant appears only in the
icon-fallback recipes (`tagged2`); graphic-based blueprint recipes without
a tech overlay drop the field (`tagged1`), and regular icons and renders
carry no tag at all. -/
theorem registered_filename_shapes (data : IconBuildData) (cache : CacheModel)
    (old_index : List String) (force_rebuild : Bool)
    (r : Except IconErr Unit) (s : RunState)
    (h : processTypes data cache old_index force_rebuild data.types initState
      = (r, s)) :
    ∀ f ∈ s.new_index, GoodName cache f :=
  (grows_init h).1

/-- C5 amended-claim witness. -/
theorem registered_filename_shapes_witness :
    GoodName sampleCache "AB.png" ∧
    ∀ f ∈ (processTypes sampleData sampleCache [] false sampleData.types
      initState).2.new_index, GoodName sampleCache f :=
  ⟨registered_filename_shapes sampleData sampleCache [] false _ _ rfl "AB.png"
      (by decide),
   registered_filename_shapes sampleData sampleCache [] false _ _ rfl⟩

/-- A blueprint type (group 10, category 9, graphic 55 with folder
`"bpfold"`) whose `_64_bp.png` resource is missing from the store while its
`icon_id` resource `"ic.png"` exists. -/
def bpFallbackData : IconBuildData where
  types := [(1, { group_id := 10, icon_id := some 3, graphic_id := some 55,
                  meta_group_id := none })]
  group_categories := fun g => if g = 10 then some 9 else none
  icon_files := fun i => if i = 3 then some "ic.png" else none
  graphics_folders := fun g => if g = 55 then some "bpfold" else none
  skin_materials := fun _ => none

/-- Resource store for `bpFallbackData`: only `"ic.png"` exists. -/
def bpFallbackCache : CacheModel where
  has_resource := fun r => r = "ic.png"
  hash_of := fun r => if r = "ic.png" then some "H" else none
  path_of := fun r => if r = "ic.png" then some "/p/ic.png" else none

/-- C7 counterexample: a Blueprint-category type with a known graphics
folder whose `_64_bp.png` resource is absent and whose `icon_id` resource
exists emits NOTHING — the classifier does not fall back to the icon_id
recipe, because the icon branch is the `else` of the folder lookup, not of
the resource check. -/
theorem blueprint_no_fallback_counterexample :
    processType bpFallbackData bpFallbackCache [] false 1
      { group_id := 10, icon_id := some 3, graphic_id := some 55,
        meta_group_id := none } initState = (.ok (), initState) := by
  rfl

/-- C7 (amended): for a Blueprint(9)- or Reaction(34)-category type whose
graphic_id maps to a known graphics folder, if the `_64_bp.png` resource is
absent from the store or the group is in the flat-icon override set, the
type is skipped silently — no fallback to the icon_id recipe happens; the
icon_id recipe applies only when no graphics folder is known. -/
theorem blueprint_no_fallback (data : IconBuildData) (cache : CacheModel)
    (old_index : List String) (force_rebuild : Bool) (type_id : Nat)
    (ti : TypeInfo) (st : RunState) (cat : Nat) (folder : String)
    (hcat : data.group_categories ti.group_id = some cat)
    (h9 : cat = 9 ∨ cat = 34)
    (hg : ti.graphic_id.bind data.graphics_folders = some folder)
    (hno : ¬ (cache.has_resource (trimEndSlashes folder ++ "/"
        ++ natRepr (ti.graphic_id.getD 0) ++ "_64_bp.png") = true
      ∧ ti.group_id ∉ USE_ICON_INSTEAD_OF_GRAPHIC_GROUPS)) :
    processType data cache old_index force_rebuild type_id ti st
      = (.ok (), st) := by
  have hgs : ti.graphic_id ≠ none := by
    intro hgn
    rw [hgn] at hg
    simp [Option.bind] at hg
  unfold processType
  rw [bind_apply, liftE_apply]
  simp only [getCategory, hcat]
  rw [if_neg (by rintro ⟨-, h2, -⟩; exact hgs h2)]
  rw [if_pos h9]
  simp only [hg]
  rw [if_neg hno]
  rfl

/-- C7 amended-claim witness. -/
theorem blueprint_no_fallback_witness :
    processType bpFallbackData bpFallbackCache ["x.png"] false 1
      { group_id := 10, icon_id := some 3, graphic_id := some 55,
        meta_group_id := none } initState = (.ok (), initState) :=
  blueprint_no_fallback bpFallbackData bpFallbackCache ["x.png"] false 1 _
    initState 9 "bpfold" (by rfl) (.inl rfl) (by rfl)
    (by rintro ⟨hres, -⟩; revert hres; decide)

/-- A SKIN-category type (group 20, category 91) that is absent from the
skin-material table but has `icon_id = 4` whose resource `"sk.png"`
exists. -/
def skinIconData : IconBuildData where
  types := [(2, { group_id := 20, icon_id := some 4, graphic_id := none,
                  meta_group_id := none })]
  group_categories := fun g => if g = 20 then some 91 else none
  icon_files := fun i => if i = 4 then some "sk.png" else none
  graphics_folders := fun _ => none
  skin_materials := fun _ => none

/-- Resource store for `skinIconData`. -/
def skinIconCache : CacheModel where
  has_resource := fun r => r = "sk.png"
  hash_of := fun r => if r = "sk.png" then some "S" else none
  path_of := fun r => if r = "sk.png" then some "/p/sk.png" else none

/-- C9 counterexample: a SKIN-category type absent from the skin-material
table that carries an `icon_id` with an existing resource does emit an
`Icon` kind — the skin-material lookup is reached only when neither a
graphics folder nor an icon_id applies, so the claim's universal
"emits nothing" fails. -/
theorem skin_with_icon_emits_counterexample :
    (processType skinIconData skinIconCache [] false 2
      { group_id := 20, icon_id := some 4, graphic_id := none,
        meta_group_id := none } initState).2.meta
      = [(2, [(.Icon, "S.png")])] := by
  rfl

/-- C9 (amended): a SKIN-category(91) type with no known graphics folder
and no icon_id whose type_id is absent from the skin-material table emits
no icon kinds and raises no error: the state is returned unchanged and
processing continues. -/
theorem skin_without_material_skipped (data : IconBuildData)
    (cache : CacheModel) (old_index : List String) (force_rebuild : Bool)
    (type_id : Nat) (ti : TypeInfo) (st : RunState)
    (hcat : data.group_categories ti.group_id = some 91)
    (hg : ti.graphic_id.bind data.graphics_folders = none)
    (hi : ti.icon_id = none)
    (hs : data.skin_materials type_id = none) :
    processType data cache old_index force_rebuild type_id ti st
      = (.ok (), st) := by
  unfold processType
  rw [bind_apply, liftE_apply]
  simp only [getCategory, hcat]
  rw [if_neg (by rintro ⟨-, -, h91⟩; exact h91 rfl)]
  rw [if_neg (by rintro (h | h) <;> simp at h)]
  simp only [hg, hi, hs]
  simp [pure_apply]

/-- C9 amended-claim witness: a SKIN type with no icon_id and no graphic. -/
theorem skin_without_material_skipped_witness :
    processType skinIconData skinIconCache [] false 3
      { group_id := 20, icon_id := none, graphic_id := none,
        meta_group_id := none } initState = (.ok (), initState) :=
  skin_without_material_skipped skinIconData skinIconCache [] false 3 _
    initState (by rfl) (by rfl) (by rfl) (by rfl)

/-- C8: a Blueprint(9)-category type with a known graphics folder, group
not overridden, and no meta group: with both `_64_bp.png` and
`_64_bpc.png` resources present, classification emits exactly
`{Icon, Blueprint, BlueprintCopy}` with cache filenames
`"bp;<hash(bp)>.png"` / `"bpc;<hash(bpc)>.png"`, `ServiceMetadata` mapping
`Icon` and `Blueprint` to the bp file and `BlueprintCopy` to the bpc file;
with only `_64_bp.png` present it emits exactly `{Icon, Blueprint}`. -/
theorem blueprint_classification (data : IconBuildData) (cache : CacheModel)
    (type_id g : Nat) (ti : TypeInfo) (folder hbp pbp : String)
    (hcat : data.group_categories ti.group_id = some 9)
    (hgr : ti.graphic_id = some g)
    (hfold : data.graphics_folders g = some folder)
    (hover : ti.group_id ∉ USE_ICON_INSTEAD_OF_GRAPHIC_GROUPS)
    (hmeta : ti.meta_group_id = none)
    (hres : cache.has_resource (trimEndSlashes folder ++ "/" ++ natRepr g ++ "_64_bp.png") = true)
    (hhash : cache.hash_of (trimEndSlashes folder ++ "/" ++ natRepr g ++ "_64_bp.png") = some hbp)
    (hpath : cache.path_of (trimEndSlashes folder ++ "/" ++ natRepr g ++ "_64_bp.png") = some pbp) :
    (∀ hbpc pbpc : String,
      cache.has_resource (trimEndSlashes folder ++ "/" ++ natRepr g ++ "_64_bpc.png") = true →
      cache.hash_of (trimEndSlashes folder ++ "/" ++ natRepr g ++ "_64_bpc.png") = some hbpc →
      cache.path_of (trimEndSlashes folder ++ "/" ++ natRepr g ++ "_64_bpc.png") = some pbpc →
      processType data cache [] false type_id ti initState =
        (.ok (), RunState.mk
          [(type_id,
            [(.Icon, "bp;" ++ hbp ++ ".png"), (.Blueprint, "bp;" ++ hbp ++ ".png"),
             (.BlueprintCopy, "bpc;" ++ hbpc ++ ".png")])]
          ["bp;" ++ hbp ++ ".png", "bpc;" ++ hbpc ++ ".png"]
          [.copyOrConvert pbp ("bp;" ++ hbp ++ ".png")
              (trimEndSlashes folder ++ "/" ++ natRepr g ++ "_64_bp.png") ".png",
            .copyOrConvert pbpc ("bpc;" ++ hbpc ++ ".png")
              (trimEndSlashes folder ++ "/" ++ natRepr g ++ "_64_bp.png") ".png"]))
    ∧ (cache.has_resource (trimEndSlashes folder ++ "/" ++ natRepr g ++ "_64_bpc.png") = false →
      processType data cache [] false type_id ti initState =
        (.ok (), RunState.mk
          [(type_id,
            [(.Icon, "bp;" ++ hbp ++ ".png"), (.Blueprint, "bp;" ++ hbp ++ ".png")])]
          ["bp;" ++ hbp ++ ".png"]
          [.copyOrConvert pbp ("bp;" ++ hbp ++ ".png")
              (trimEndSlashes folder ++ "/" ++ natRepr g ++ "_64_bp.png") ".png"])) := by
  have hbind : ti.graphic_id.bind data.graphics_folders = some folder := by
    rw [hgr]; simpa using hfold
  have hgetD : ti.graphic_id.getD 0 = g := by rw [hgr]; rfl
  have htech : techicon_resource_for_metagroup (ti.meta_group_id.getD 1) = none := by
    rw [hmeta]; rfl
  constructor
  · intro hbpc pbpc hresc hhashc hpathc
    have hne : ("bpc;" ++ hbpc ++ ".png" : String) ≠ "bp;" ++ hbp ++ ".png" := by
      intro h
      have h2 := congrArg String.toList h
      simp only [toList_append, show ("bpc;" : String).toList = ['b','p','c',';'] from rfl,
        show ("bp;" : String).toList = ['b','p',';'] from rfl, List.cons_append, List.nil_append,
        List.cons.injEq] at h2
      exact absurd h2.2.2.1 (by decide)
    unfold processType
    rw [bind_apply, liftE_apply]
    simp only [getCategory, hcat]
    rw [if_neg (by rintro ⟨-, h2, -⟩; rw [hgr] at h2; simp at h2)]
    rw [if_pos (Or.inl trivial)]
    simp only [hbind, hgetD, htech]
    rw [if_pos ⟨hres, hover⟩]
    rw [bind_apply, cacheSite_apply]
    simp only [hashOfE, hhash, pathOfE, hpath, Bind.bind, Except.bind, hresc, if_true,
      hhashc, hpathc, cacheSite_apply, insertSet, initState]
    simp [metaInsert, kindInsert, insertSet, hne, List.elem_eq_mem]
  · intro hresc
    unfold processType
    rw [bind_apply, liftE_apply]
    simp only [getCategory, hcat]
    rw [if_neg (by rintro ⟨-, h2, -⟩; rw [hgr] at h2; simp at h2)]
    rw [if_pos (Or.inl trivial)]
    simp only [hbind, hgetD, htech]
    rw [if_pos ⟨hres, hover⟩]
    rw [bind_apply, cacheSite_apply]
    simp only [hashOfE, hhash, pathOfE, hpath, Bind.bind, Except.bind, hresc, if_false,
      cacheSite_apply, insertSet, initState]
    simp [metaInsert, kindInsert, insertSet, List.elem_eq_mem, pure_apply]


/-- The spec's worked example: type 100, graphic 55, folder `"bp/"`. -/
def bpData : IconBuildData where
  types := [(100, { group_id := 30, icon_id := none, graphic_id := some 55,
                    meta_group_id := none })]
  group_categories := fun g => if g = 30 then some 9 else none
  icon_files := fun _ => none
  graphics_folders := fun g => if g = 55 then some "bp/" else none
  skin_materials := fun _ => none

/-- Resource store for `bpData`: both blueprint resources present. -/
def bpCache : CacheModel where
  has_resource := fun r => r = "bp/55_64_bp.png" ∨ r = "bp/55_64_bpc.png"
  hash_of := fun r =>
    if r = "bp/55_64_bp.png" then some "HBP"
    else if r = "bp/55_64_bpc.png" then some "HBPC" else none
  path_of := fun r =>
    if r = "bp/55_64_bp.png" then some "/c/bp"
    else if r = "bp/55_64_bpc.png" then some "/c/bpc" else none

theorem readUntilSep_no_sep {l : List Char} (h : SEP ∉ l) :
    readUntilSep l = (l, []) := by
  induction l with
  | nil => rfl
  | cons c cs ih =>
    simp only [readUntilSep]
    rw [if_neg (by intro hc; exact h (hc ▸ List.mem_cons_self c cs))]
    rw [ih (fun hm => h (List.mem_cons_of_mem c hm))]

theorem readUntilSep_append_sep {x r : List Char} (h : SEP ∉ x) :
    readUntilSep (x ++ SEP :: r) = (x ++ [SEP], r) := by
  induction x with
  | nil => simp [readUntilSep]
  | cons c cs ih =>
    simp only [List.cons_append, readUntilSep, List.append_eq]
    rw [if_neg (by intro hc; exact h (hc ▸ List.mem_cons_self c cs))]
    rw [ih (fun hm => h (List.mem_cons_of_mem c hm))]

theorem dropWhile_sep_of_not_mem {l : List Char} (h : SEP ∉ l) :
    l.dropWhile (· = SEP) = l := by
  cases l with
  | nil => rfl
  | cons c cs =>
    have hc : ¬ (c = SEP) := fun hh => h (hh ▸ List.mem_cons_self c cs)
    simp [List.dropWhile_cons, hc]

theorem trimEndSep_no_sep {x : List Char} (h : SEP ∉ x) : trimEndSep x = x := by
  unfold trimEndSep
  rw [dropWhile_sep_of_not_mem (by simpa using h)]
  simp

theorem trimEndSep_append_sep {x : List Char} (h : SEP ∉ x) :
    trimEndSep (x ++ [SEP]) = x := by
  unfold trimEndSep
  rw [List.reverse_append]
  simp only [List.reverse_cons, List.reverse_nil, List.nil_append,
    List.singleton_append, List.dropWhile_cons]
  rw [if_pos (by simp)]
  rw [dropWhile_sep_of_not_mem (by simpa using h)]
  simp

theorem readIndexChunks_joinSep {chunks : List (List Char)}
    (hsep : ∀ x ∈ chunks, SEP ∉ x) (hne : ∀ x ∈ chunks, x ≠ []) :
    (readIndexChunks (joinSep chunks)).map trimEndSep = chunks := by
  induction chunks with
  | nil => simp [joinSep, readIndexChunks_nil]
  | cons x rest ih =>
    cases rest with
    | nil =>
      have hx : x ≠ [] := hne x (List.mem_cons_self _ _)
      cases x with
      | nil => exact absurd rfl hx
      | cons c cs =>
        rw [show joinSep [c :: cs] = c :: cs from rfl]
        rw [readIndexChunks_cons]
        rw [readUntilSep_no_sep (hsep _ (List.mem_cons_self _ _))]
        simp only [readIndexChunks_nil, List.map_cons, List.map_nil]
        rw [trimEndSep_no_sep (hsep _ (List.mem_cons_self _ _))]
    | cons y ys =>
      have hx : x ≠ [] := hne x (List.mem_cons_self _ _)
      cases x with
      | nil => exact absurd rfl hx
      | cons c cs =>
        have hxs : SEP ∉ (c :: cs) := hsep _ (List.mem_cons_self _ _)
        have hstep : joinSep ((c :: cs) :: y :: ys)
            = c :: (cs ++ SEP :: joinSep (y :: ys)) := by
          simp [joinSep]
        rw [hstep, readIndexChunks_cons]
        have hru : readUntilSep (c :: (cs ++ SEP :: joinSep (y :: ys)))
            = ((c :: cs) ++ [SEP], joinSep (y :: ys)) := by
          have h2 := readUntilSep_append_sep (x := c :: cs)
            (r := joinSep (y :: ys)) hxs
          simpa [List.cons_append] using h2
        rw [hru]
        simp only [List.map_cons]
        rw [trimEndSep_append_sep hxs]
        rw [ih (fun z hz => hsep z (List.mem_cons_of_mem _ hz))
          (fun z hz => hne z (List.mem_cons_of_mem _ hz))]

theorem mem_foldl_insertSet_iff {fnames : List String} {l : List String}
    {x : String} : x ∈ fnames.foldl insertSet l ↔ x ∈ l ∨ x ∈ fnames := by
  induction fnames generalizing l with
  | nil => simp
  | cons f fs ih =>
    simp only [List.foldl_cons, ih (l := insertSet l f), mem_insertSet,
      List.mem_cons]
    tauto

theorem mem_loadIndexList {bytes : List Char} {s : String} :
    s ∈ loadIndexList bytes
      ↔ s ∈ (readIndexChunks bytes).map (fun ch => (trimEndSep ch).asString) := by
  unfold loadIndexList
  rw [← List.foldl_map (fun ch => (trimEndSep ch).asString) insertSet]
  rw [mem_foldl_insertSet_iff]
  simp

theorem map_asString_trim (chunks : List (List Char)) :
    chunks.map (fun ch => (trimEndSep ch).asString)
      = (chunks.map trimEndSep).map List.asString := by
  rw [List.map_map]
  rfl

theorem loadIndexList_indexBytes (l : List String)
    (h : ∀ s ∈ l, s ≠ "" ∧ SEP ∉ s.toList) :
    ∀ s : String, s ∈ loadIndexList (indexBytes l) ↔ s ∈ l := by
  intro s
  have hperm : List.Perm (sortStrings l) l := by
    unfold sortStrings
    exact List.perm_insertionSort _ l
  have hsort : ∀ t ∈ sortStrings l, t ≠ "" ∧ SEP ∉ t.toList :=
    fun t ht => h t (hperm.mem_iff.mp ht)
  have hsep : ∀ x ∈ (sortStrings l).map String.toList, SEP ∉ x := by
    intro x hx
    rcases List.mem_map.mp hx with ⟨t, ht, het⟩
    rw [← het]
    exact (hsort t ht).2
  have hne : ∀ x ∈ (sortStrings l).map String.toList, x ≠ [] := by
    intro x hx
    rcases List.mem_map.mp hx with ⟨t, ht, het⟩
    rw [← het]
    intro hnil
    apply (hsort t ht).1
    have h2 := congrArg List.asString hnil
    rw [String.asString_toList] at h2
    simpa using h2
  unfold indexBytes
  rw [mem_loadIndexList, map_asString_trim, readIndexChunks_joinSep hsep hne,
    List.map_map]
  simp only [Function.comp_def, String.asString_toList, List.map_id']
  exact hperm.mem_iff

/-- C4 (amended): for every finite set of NONEMPTY filenames free of the
separator byte 0x1E, serializing the new index (sorted, 0x1E-interspersed)
and loading the record back yields exactly the same set of filenames. -/
theorem index_round_trip (l : List String)
    (h : ∀ s ∈ l, s ≠ "" ∧ SEP ∉ s.toList) :
    ∀ s : String, s ∈ loadIndexList (indexBytes l) ↔ s ∈ l :=
  loadIndexList_indexBytes l h

/-- C4 amended-claim witness. -/
theorem index_round_trip_witness :
    (∀ s ∈ (["b", "a"] : List String), s ≠ "" ∧ SEP ∉ s.toList) ∧
    ∀ s : String, s ∈ loadIndexList (indexBytes ["b", "a"])
      ↔ s ∈ (["b", "a"] : List String) :=
  ⟨by decide, index_round_trip ["b", "a"] (by decide)⟩

/-- C4 counterexample: the empty filename contains no separator byte, yet
the singleton set holding it serializes to an empty record which loads back
as the empty set — the round trip loses the entry. -/
theorem index_round_trip_counterexample :
    (∀ s ∈ ([""] : List String), SEP ∉ s.toList) ∧
    ¬ (∀ s : String, s ∈ loadIndexList (indexBytes [""])
        ↔ s ∈ ([""] : List String)) := by
  constructor
  · decide
  · intro h
    have h2 := (h "").mpr (List.mem_singleton.mpr rfl)
    exact absurd h2 (by decide)

/-- Decimal value of a digit string, used to invert `natDigits`. -/
def digitsVal (l : List Char) : Nat :=
  l.foldl (fun a c => 10 * a + (c.toNat - 48)) 0

theorem digitChar_toNat {m : Nat} (h : m < 10) :
    (Nat.digitChar m).toNat = 48 + m := by
  interval_cases m <;> rfl

theorem digitChar_isDigit {m : Nat} (h : m < 10) :
    (Nat.digitChar m).isDigit = true := by
  interval_cases m <;> rfl

theorem natDigits_all_digits (n : Nat) :
    ∀ c ∈ natDigits n, c.isDigit = true := by
  induction n using Nat.strong_induction_on with
  | _ n ih =>
    rw [natDigits_unfold]
    by_cases hn : n < 10
    · simp only [if_pos hn, List.mem_singleton]
      rintro c rfl
      exact digitChar_isDigit hn
    · simp only [if_neg hn]
      intro c hc
      rcases List.mem_append.mp hc with h | h
      · exact ih (n / 10) (Nat.div_lt_self (by omega) (by omega)) c h
      · simp only [List.mem_singleton] at h
        subst h
        exact digitChar_isDigit (Nat.mod_lt _ (by omega))

theorem digitsVal_natDigits (n : Nat) : digitsVal (natDigits n) = n := by
  induction n using Nat.strong_induction_on with
  | _ n ih =>
    rw [natDigits_unfold]
    by_cases hn : n < 10
    · simp only [if_pos hn]
      simp [digitsVal, digitChar_toNat hn]
    · simp only [if_neg hn]
      unfold digitsVal
      rw [List.foldl_append]
      simp only [List.foldl_cons, List.foldl_nil]
      rw [digitChar_toNat (Nat.mod_lt _ (by omega))]
      have h2 := ih (n / 10) (Nat.div_lt_self (by omega) (by omega))
      unfold digitsVal at h2
      rw [h2]
      omega

theorem natDigits_inj {m n : Nat} (h : natDigits m = natDigits n) : m = n := by
  have h2 := congrArg digitsVal h
  rwa [digitsVal_natDigits, digitsVal_natDigits] at h2

theorem natRepr_toList (n : Nat) : (natRepr n).toList = natDigits n := rfl

/-- Splitting two equal strings at a non-digit marker sitting after a
digits-only prefix. -/
theorem digits_marker_split {a₁ a₂ b₁ b₂ : List Char} {c₁ c₂ : Char}
    (h₁ : ∀ c ∈ a₁, c.isDigit = true) (h₂ : ∀ c ∈ a₂, c.isDigit = true)
    (hc₁ : c₁.isDigit = false) (hc₂ : c₂.isDigit = false)
    (h : a₁ ++ c₁ :: b₁ = a₂ ++ c₂ :: b₂) : a₁ = a₂ ∧ c₁ = c₂ ∧ b₁ = b₂ := by
  induction a₁ generalizing a₂ with
  | nil =>
    cases a₂ with
    | nil => simpa using h
    | cons d ds =>
      exfalso
      simp only [List.nil_append, List.cons_append, List.cons.injEq] at h
      have hd := h₂ d (List.mem_cons_self _ _)
      rw [← h.1, hc₁] at hd
      exact absurd hd (by simp)
  | cons e es ih =>
    cases a₂ with
    | nil =>
      exfalso
      simp only [List.nil_append, List.cons_append, List.cons.injEq] at h
      have he := h₁ e (List.mem_cons_self _ _)
      rw [h.1, hc₂] at he
      exact absurd he (by simp)
    | cons d ds =>
      simp only [List.cons_append, List.cons.injEq] at h
      obtain ⟨rfl, h'⟩ := h
      obtain ⟨ha, hc, hb⟩ := ih (fun c hc => h₁ c (List.mem_cons_of_mem _ hc))
        (fun c hc => h₂ c (List.mem_cons_of_mem _ hc)) h'
      exact ⟨by rw [ha], hc, hb⟩

theorem jsonName_toList (t : Nat) :
    (jsonName t).toList = natDigits t ++ '.' :: ['j', 's', 'o', 'n'] := by
  unfold jsonName
  rw [toList_append, natRepr_toList]
  rfl

theorem linkName_toList (t : Nat) (k : IconKind) :
    (linkName t k).toList
      = natDigits t ++ '_' :: ((k.name ++ "." ++ kindExt k).toList) := by
  unfold linkName
  simp only [toList_append, natRepr_toList, List.append_assoc]
  rfl

theorem jsonName_inj {t₁ t₂ : Nat} (h : jsonName t₁ = jsonName t₂) : t₁ = t₂ := by
  have h2 := congrArg String.toList h
  rw [jsonName_toList, jsonName_toList] at h2
  exact natDigits_inj (digits_marker_split (natDigits_all_digits t₁)
    (natDigits_all_digits t₂) (by decide) (by decide) h2).1

theorem kind_name_ext_inj {k₁ k₂ : IconKind}
    (h : (k₁.name ++ "." ++ kindExt k₁).toList
      = (k₂.name ++ "." ++ kindExt k₂).toList) : k₁ = k₂ := by
  cases k₁ <;> cases k₂ <;> first | rfl | (exact absurd h (by decide))

theorem linkName_inj {t₁ t₂ : Nat} {k₁ k₂ : IconKind}
    (h : linkName t₁ k₁ = linkName t₂ k₂) : t₁ = t₂ ∧ k₁ = k₂ := by
  have h2 := congrArg String.toList h
  rw [linkName_toList, linkName_toList] at h2
  have h3 := digits_marker_split (natDigits_all_digits t₁)
    (natDigits_all_digits t₂) (by decide) (by decide) h2
  exact ⟨natDigits_inj h3.1, kind_name_ext_inj h3.2.2⟩

theorem jsonName_ne_linkName (t₁ t₂ : Nat) (k : IconKind) :
    jsonName t₁ ≠ linkName t₂ k := by
  intro h
  have h2 := congrArg String.toList h
  rw [jsonName_toList, linkName_toList] at h2
  have h3 := digits_marker_split (natDigits_all_digits t₁)
    (natDigits_all_digits t₂) (by decide) (by decide) h2
  exact absurd h3.2.1 (by decide)

/-- The created-files map contributed by one type of the web loop
(the first component of `webTypeStep`, independent of force/old links). -/
def webCreatedOfType (acc : List (String × String))
    (entry : Nat × List (IconKind × String)) : List (String × String) :=
  entry.2.foldl (fun a e => insertAssoc a (linkName entry.1 e.1) e.2)
    (insertAssoc acc (jsonName entry.1)
      (serializeKinds (entry.2.map Prod.fst)))

/-- The full created-files map the web publisher writes to index.json. -/
def webCreatedFiles (meta : Meta) : List (String × String) :=
  meta.foldl webCreatedOfType []

theorem lookup_insertAssoc_self (m : List (String × String)) (k v : String) :
    (insertAssoc m k v).lookup k = some v := by
  induction m with
  | nil => simp [insertAssoc, List.lookup]
  | cons p rest ih =>
    obtain ⟨k', v'⟩ := p
    by_cases hk : k' = k
    · simp [insertAssoc, hk, List.lookup]
    · have hb : (k == k') = false := by simpa using Ne.symm hk
      simp only [insertAssoc, if_neg hk, List.lookup, hb]
      exact ih

theorem lookup_insertAssoc_ne {k' k : String} (m : List (String × String))
    (v : String) (h : k' ≠ k) :
    (insertAssoc m k v).lookup k' = m.lookup k' := by
  have hb : (k' == k) = false := by simpa using h
  induction m with
  | nil => simp [insertAssoc, List.lookup, hb]
  | cons p rest ih =>
    obtain ⟨k0, v0⟩ := p
    by_cases hk : k0 = k
    · subst hk
      simp only [insertAssoc, if_pos rfl, List.lookup, hb]
    · simp only [insertAssoc, if_neg hk, List.lookup]
      by_cases h0 : k' = k0
      · have hb0 : (k' == k0) = true := by simpa using h0
        simp only [hb0]
      · have hb0 : (k' == k0) = false := by simpa using h0
        simp only [hb0]
        exact ih

theorem lookup_linkFold_preserved {tid : Nat}
    (icons : List (IconKind × String)) (acc : List (String × String))
    {nm : String} (h : ∀ e ∈ icons, nm ≠ linkName tid e.1) :
    (icons.foldl (fun a e => insertAssoc a (linkName tid e.1) e.2) acc).lookup nm
      = acc.lookup nm := by
  induction icons generalizing acc with
  | nil => rfl
  | cons e es ih =>
    simp only [List.foldl_cons]
    rw [ih _ (fun x hx => h x (List.mem_cons_of_mem _ hx))]
    exact lookup_insertAssoc_ne acc e.2 (h e (List.mem_cons_self _ _))

theorem lookup_webCreatedOfType_other
    (entry : Nat × List (IconKind × String)) (acc : List (String × String))
    {nm : String} (hjson : nm ≠ jsonName entry.1)
    (hlink : ∀ k : IconKind, nm ≠ linkName entry.1 k) :
    (webCreatedOfType acc entry).lookup nm = acc.lookup nm := by
  unfold webCreatedOfType
  rw [lookup_linkFold_preserved _ _ (fun e _ => hlink e.1)]
  exact lookup_insertAssoc_ne acc _ hjson

theorem lookup_fold_preserved_of_fresh {meta : Meta}
    {b : List (String × String)} {tid : Nat}
    (h : tid ∉ meta.map Prod.fst) :
    ((meta.foldl webCreatedOfType b).lookup (jsonName tid)
        = b.lookup (jsonName tid))
    ∧ ∀ k : IconKind, (meta.foldl webCreatedOfType b).lookup (linkName tid k)
        = b.lookup (linkName tid k) := by
  induction meta generalizing b with
  | nil => exact ⟨rfl, fun _ => rfl⟩
  | cons entry rest ih =>
    have htid : tid ≠ entry.1 := by
      intro he
      exact h (by simp [he])
    have hrest : tid ∉ rest.map Prod.fst := fun hm => h (by simp [hm])
    simp only [List.foldl_cons]
    refine ⟨?_, fun k => ?_⟩
    · rw [(ih (b := webCreatedOfType b entry) hrest).1]
      exact lookup_webCreatedOfType_other entry b
        (fun he => htid (jsonName_inj he))
        (fun k he => jsonName_ne_linkName tid entry.1 k he)
    · rw [(ih (b := webCreatedOfType b entry) hrest).2 k]
      exact lookup_webCreatedOfType_other entry b
        (fun he => jsonName_ne_linkName entry.1 tid k he.symm)
        (fun k' he => htid (linkName_inj he).1)

theorem lookup_linkFold_self {tid : Nat} {icons : List (IconKind × String)}
    (hnd : (icons.map Prod.fst).Nodup) (acc : List (String × String))
    {k : IconKind} {f : String} (hmem : (k, f) ∈ icons) :
    (icons.foldl (fun a e => insertAssoc a (linkName tid e.1) e.2) acc).lookup
      (linkName tid k) = some f := by
  induction icons generalizing acc with
  | nil => simp at hmem
  | cons e es ih =>
    obtain ⟨e1, e2⟩ := e
    simp only [List.map_cons, List.nodup_cons] at hnd
    rcases List.mem_cons.mp hmem with he | hmem'
    · injection he with h1 h2
      subst h1
      subst h2
      simp only [List.foldl_cons]
      rw [lookup_linkFold_preserved es _ (fun x hx hne => hnd.1 (by
        rw [(linkName_inj hne).2]
        exact List.mem_map.mpr ⟨x, hx, rfl⟩))]
      exact lookup_insertAssoc_self acc _ _
    · simp only [List.foldl_cons]
      exact ih hnd.2 _ hmem'

theorem lookup_webCreatedOfType_self {tid : Nat}
    {icons : List (IconKind × String)} (hnd : (icons.map Prod.fst).Nodup)
    (acc : List (String × String)) :
    ((webCreatedOfType acc (tid, icons)).lookup (jsonName tid)
        = some (serializeKinds (icons.map Prod.fst)))
    ∧ ∀ k f, (k, f) ∈ icons →
        (webCreatedOfType acc (tid, icons)).lookup (linkName tid k) = some f := by
  constructor
  · unfold webCreatedOfType
    rw [lookup_linkFold_preserved _ _
      (fun e _ => jsonName_ne_linkName tid tid e.1)]
    exact lookup_insertAssoc_self acc _ _
  · intro k f hmem
    unfold webCreatedOfType
    exact lookup_linkFold_self hnd _ hmem

theorem lookup_webCreatedFiles {meta : Meta} (hwf : MetaWF meta) :
    ∀ acc tid icons, (tid, icons) ∈ meta →
      ((meta.foldl webCreatedOfType acc).lookup (jsonName tid)
          = some (serializeKinds (icons.map Prod.fst)))
      ∧ ∀ k f, (k, f) ∈ icons →
          (meta.foldl webCreatedOfType acc).lookup (linkName tid k) = some f := by
  obtain ⟨hkeys, hinner⟩ := hwf
  induction meta with
  | nil => intro acc tid icons h; simp at h
  | cons entry rest ih =>
    intro acc tid icons hmem
    simp only [List.map_cons, List.nodup_cons] at hkeys
    rcases List.mem_cons.mp hmem with he | hmem'
    · subst he
      have hfresh : tid ∉ rest.map Prod.fst := hkeys.1
      have hself := @lookup_webCreatedOfType_self tid icons
        (hinner _ (List.mem_cons_self _ _)) acc
      simp only [List.foldl_cons]
      have hpres := lookup_fold_preserved_of_fresh
        (b := webCreatedOfType acc (tid, icons)) hfresh
      refine ⟨?_, fun k f hkf => ?_⟩
      · rw [hpres.1]
        exact hself.1
      · rw [hpres.2 k]
        exact hself.2 k f hkf
    · simp only [List.foldl_cons]
      exact ih hkeys.2 (fun p hp => hinner p (List.mem_cons_of_mem _ hp)) _
        tid icons hmem'

end IconGen

namespace IconGen

theorem webLinkFold_fst (force : Bool) (links : List (String × String))
    (tid : Nat) (icons : List (IconKind × String))
    (acc : List (String × String) × List Event) :
    (icons.foldl (webLinkStep force links tid) acc).1
      = icons.foldl (fun a e => insertAssoc a (linkName tid e.1) e.2) acc.1 := by
  induction icons generalizing acc with
  | nil => rfl
  | cons e es ih =>
    simp only [List.foldl_cons]
    rw [ih]
    rfl

theorem webFold_fst (force : Bool) (links : List (String × String))
    (meta : Meta) :
    (webFold force links meta).1 = webCreatedFiles meta := by
  unfold webFold webCreatedFiles
  suffices h : ∀ acc : List (String × String) × List Event,
      (meta.foldl (webTypeStep force links) acc).1
        = meta.foldl webCreatedOfType acc.1 by
    exact h ([], [])
  induction meta with
  | nil => intro acc; rfl
  | cons entry rest ih =>
    intro acc
    simp only [List.foldl_cons]
    rw [ih]
    congr 1
    unfold webTypeStep webCreatedOfType
    rw [webLinkFold_fst]

theorem webLinkFold_events (links : List (String × String)) (tid : Nat)
    (icons : List (IconKind × String))
    (acc : List (String × String) × List Event)
    (h : ∀ e ∈ icons, links.lookup (linkName tid e.1) = some e.2) :
    (icons.foldl (webLinkStep false links tid) acc).2 = acc.2 := by
  induction icons generalizing acc with
  | nil => rfl
  | cons e es ih =>
    simp only [List.foldl_cons]
    rw [ih _ (fun x hx => h x (List.mem_cons_of_mem _ hx))]
    unfold webLinkStep
    simp [h e (List.mem_cons_self _ _)]

theorem webFold_events (links : List (String × String)) (meta : Meta)
    (h : ∀ p ∈ meta,
      links.lookup (jsonName p.1) = some (serializeKinds (p.2.map Prod.fst))
      ∧ ∀ e ∈ p.2, links.lookup (linkName p.1 e.1) = some e.2) :
    ∀ acc : List (String × String) × List Event,
      (meta.foldl (webTypeStep false links) acc).2 = acc.2 := by
  induction meta with
  | nil => intro acc; rfl
  | cons entry rest ih =>
    intro acc
    simp only [List.foldl_cons]
    rw [ih (fun p hp => h p (List.mem_cons_of_mem _ hp))]
    unfold webTypeStep
    rw [webLinkFold_events links entry.1 entry.2 _
      (h entry (List.mem_cons_self _ _)).2]
    simp [(h entry (List.mem_cons_self _ _)).1]

/-- Publishing the web directory against its own created-files map mutates
nothing: no manifest writes, no link creation, no stale removal — only the
link index itself is rewritten. -/
theorem webPublish_self {meta : Meta} (hwf : MetaWF meta) :
    webPublish false (webCreatedFiles meta) meta
      = [.webWriteLinkIndex (webCreatedFiles meta)] := by
  have hlook := lookup_webCreatedFiles hwf []
  have hcond : ∀ p ∈ meta,
      (webCreatedFiles meta).lookup (jsonName p.1)
        = some (serializeKinds (p.2.map Prod.fst))
      ∧ ∀ e ∈ p.2, (webCreatedFiles meta).lookup (linkName p.1 e.1)
          = some e.2 := by
    intro p hp
    obtain ⟨t, icons⟩ := p
    have h2 := hlook t icons hp
    exact ⟨h2.1, fun e he => h2.2 e.1 e.2 (by simpa using he)⟩
  have h2 : (webFold false (webCreatedFiles meta) meta).2 = [] :=
    webFold_events (webCreatedFiles meta) meta hcond ([], [])
  have h1 : (webFold false (webCreatedFiles meta) meta).1 = webCreatedFiles meta :=
    webFold_fst false (webCreatedFiles meta) meta
  have hfil : ((webCreatedFiles meta).map Prod.fst).filter
      (fun e => !((webCreatedFiles meta).map Prod.fst).contains e) = [] := by
    apply List.filter_eq_nil_iff.mpr
    intro a ha
    simp [List.elem_eq_mem, ha]
  simp only [webPublish, h1, h2, hfil]
  simp

/-- C8 witness: the spec example evaluated. -/
theorem append_ext_ne_empty (s ext : String) (h : ext.toList ≠ []) :
    s ++ ext ≠ "" := by
  intro he
  apply h
  have h2 : (s ++ ext).toList = [] := by rw [he]; rfl
  rw [toList_append] at h2
  exact (List.append_eq_nil.mp h2).2

theorem sep_notin_append {a b : String} (ha : SEP ∉ a.toList)
    (hb : SEP ∉ b.toList) : SEP ∉ (a ++ b).toList := by
  rw [toList_append]
  intro hm
  rcases List.mem_append.mp hm with h | h
  · exact ha h
  · exact hb h

theorem goodName_ne_sepfree {cache : CacheModel} {f : String}
    (hg : GoodName cache f)
    (hsep : ∀ r h, cache.hash_of r = some h → SEP ∉ h.toList) :
    f ≠ "" ∧ SEP ∉ f.toList := by
  have hhv : ∀ h : String, HashVal cache h → SEP ∉ h.toList := by
    intro h hv
    obtain ⟨r, hr⟩ := hv
    exact hsep r h hr
  have hsemi : SEP ∉ (";" : String).toList := by decide
  cases hg with
  | tagged2 tag h t htag hh ht =>
    have htg : SEP ∉ tag.toList := by
      simp only [List.mem_cons, List.not_mem_nil, or_false] at htag
      rcases htag with rfl | rfl | rfl | rfl <;> decide
    have htt : SEP ∉ t.toList := by
      rcases ht with rfl | hv
      · decide
      · exact hhv t hv
    refine ⟨append_ext_ne_empty _ _ (by decide), ?_⟩
    show SEP ∉ ((tag ++ ";" ++ (h ++ ";" ++ t)) ++ ".png").toList
    exact sep_notin_append (sep_notin_append (sep_notin_append htg hsemi)
      (sep_notin_append (sep_notin_append (hhv h hh) hsemi) htt)) (by decide)
  | tagged1 tag h htag hh =>
    have htg : SEP ∉ tag.toList := by
      simp only [List.mem_cons, List.not_mem_nil, or_false] at htag
      rcases htag with rfl | rfl <;> decide
    refine ⟨append_ext_ne_empty _ _ (by decide), ?_⟩
    show SEP ∉ ((tag ++ ";" ++ h) ++ ".png").toList
    exact sep_notin_append (sep_notin_append (sep_notin_append htg hsemi)
      (hhv h hh)) (by decide)
  | plain2 h t hh ht =>
    refine ⟨append_ext_ne_empty _ _ (by decide), ?_⟩
    show SEP ∉ ((h ++ ";" ++ t) ++ ".png").toList
    exact sep_notin_append (sep_notin_append (sep_notin_append (hhv h hh)
      hsemi) (hhv t ht)) (by decide)
  | plain1 h hh =>
    refine ⟨append_ext_ne_empty _ _ (by decide), ?_⟩
    show SEP ∉ (h ++ ".png").toList
    exact sep_notin_append (hhv h hh) (by decide)
  | render h hh =>
    refine ⟨append_ext_ne_empty _ _ (by decide), ?_⟩
    show SEP ∉ (h ++ ".jpg").toList
    exact sep_notin_append (hhv h hh) (by decide)

theorem webLinkStep_snd (force : Bool) (links : List (String × String))
    (tid : Nat) (acc : List (String × String) × List Event)
    (entry : IconKind × String) :
    (webLinkStep force links tid acc entry).2 =
      if force || !(links.lookup (linkName tid entry.1) = some entry.2 : Bool)
      then acc.2 ++ [.webCreateLink (linkName tid entry.1) entry.2]
      else acc.2 := rfl

theorem webLinkFold_shape (force : Bool) (links : List (String × String))
    (tid : Nat) (icons : List (IconKind × String)) :
    ∀ acc : List (String × String) × List Event,
      ∀ e ∈ (icons.foldl (webLinkStep force links tid) acc).2,
        e ∈ acc.2 ∨ ∃ n t, e = Event.webCreateLink n t := by
  induction icons with
  | nil => intro acc e he; exact Or.inl he
  | cons x xs ih =>
    intro acc e he
    simp only [List.foldl_cons] at he
    rcases ih _ e he with h | h
    · rw [webLinkStep_snd] at h
      split at h
      · rcases List.mem_append.mp h with h2 | h2
        · exact Or.inl h2
        · exact Or.inr ⟨_, _, by simpa using h2⟩
      · exact Or.inl h
    · exact Or.inr h

theorem webTypeStep_shape (force : Bool) (links : List (String × String))
    (acc : List (String × String) × List Event)
    (entry : Nat × List (IconKind × String)) :
    ∀ e ∈ (webTypeStep force links acc entry).2,
      e ∈ acc.2 ∨ (∃ n c, e = Event.webWriteManifest n c)
        ∨ ∃ n t, e = Event.webCreateLink n t := by
  intro e he
  have he2 : e ∈ (entry.2.foldl (webLinkStep force links entry.1)
      (insertAssoc acc.1 (jsonName entry.1)
          (serializeKinds (entry.2.map Prod.fst)),
       if force || !(links.lookup (jsonName entry.1)
           = some (serializeKinds (entry.2.map Prod.fst)) : Bool)
       then acc.2 ++ [Event.webWriteManifest (jsonName entry.1)
         (serializeKinds (entry.2.map Prod.fst))]
       else acc.2)).2 := he
  rcases webLinkFold_shape force links entry.1 entry.2 _ e he2 with h | h
  · have h2 : e ∈ (if force || !(links.lookup (jsonName entry.1)
          = some (serializeKinds (entry.2.map Prod.fst)) : Bool)
        then acc.2 ++ [Event.webWriteManifest (jsonName entry.1)
          (serializeKinds (entry.2.map Prod.fst))]
        else acc.2) := h
    split at h2
    · rcases List.mem_append.mp h2 with h3 | h3
      · exact Or.inl h3
      · exact Or.inr (Or.inl ⟨_, _, by simpa using h3⟩)
    · exact Or.inl h2
  · exact Or.inr (Or.inr h)

theorem webFold_shape (force : Bool) (links : List (String × String))
    (meta : Meta) :
    ∀ e ∈ (webFold force links meta).2,
      (∃ n c, e = Event.webWriteManifest n c)
        ∨ ∃ n t, e = Event.webCreateLink n t := by
  unfold webFold
  suffices hs : ∀ acc : List (String × String) × List Event,
      ∀ e ∈ (meta.foldl (webTypeStep force links) acc).2,
        e ∈ acc.2 ∨ (∃ n c, e = Event.webWriteManifest n c)
          ∨ ∃ n t, e = Event.webCreateLink n t by
    intro e he
    rcases hs ([], []) e he with h | h
    · simp at h
    · exact h
  induction meta with
  | nil => intro acc e he; exact Or.inl he
  | cons entry rest ih =>
    intro acc e he
    simp only [List.foldl_cons] at he
    rcases ih _ e he with h | h
    · rcases webTypeStep_shape force links acc entry e h with h2 | h2
      · exact Or.inl h2
      · exact Or.inr h2
    · exact Or.inr h

theorem mem_webPublish {force : Bool} {links : List (String × String)}
    {meta : Meta} {e : Event} (he : e ∈ webPublish force links meta) :
    (∃ n c, e = Event.webWriteManifest n c)
      ∨ (∃ n t, e = Event.webCreateLink n t)
      ∨ (∃ n, e = Event.webRemoveStale n)
      ∨ e = Event.webWriteLinkIndex (webFold force links meta).1 := by
  have he2 : e ∈ (webFold force links meta).2
      ++ ((links.map Prod.fst).filter
            (fun x => !((webFold force links meta).1.map Prod.fst).contains x)).map
          Event.webRemoveStale
      ++ [Event.webWriteLinkIndex (webFold force links meta).1] := he
  rcases List.mem_append.mp he2 with h | h
  · rcases List.mem_append.mp h with h2 | h2
    · rcases webFold_shape force links meta e h2 with h3 | h3
      · exact Or.inl h3
      · exact Or.inr (Or.inl h3)
    · rcases List.mem_map.mp h2 with ⟨n, -, hn⟩
      exact Or.inr (Or.inr (Or.inl ⟨n, hn.symm⟩))
  · exact Or.inr (Or.inr (Or.inr (by simpa using h)))

theorem mem_insertAssoc_keys {m : List (String × String)} {k v a : String} :
    a ∈ (insertAssoc m k v).map Prod.fst ↔ a = k ∨ a ∈ m.map Prod.fst := by
  induction m with
  | nil => simp [insertAssoc]
  | cons p rest ih =>
    obtain ⟨k0, v0⟩ := p
    by_cases hk : k0 = k
    · subst hk
      have hins : insertAssoc ((k0, v0) :: rest) k0 v = (k0, v) :: rest := by
        simp [insertAssoc]
      rw [hins]
      simp only [List.map_cons, List.mem_cons]
      tauto
    · have hins : insertAssoc ((k0, v0) :: rest) k v
          = (k0, v0) :: insertAssoc rest k v := by
        simp [insertAssoc, hk]
      rw [hins]
      simp only [List.map_cons, List.mem_cons, ih]
      tauto

theorem mem_linkFold_keys {tid : Nat} {icons : List (IconKind × String)}
    {a : String} :
    ∀ acc : List (String × String),
      a ∈ ((icons.foldl (fun x e => insertAssoc x (linkName tid e.1) e.2)
          acc).map Prod.fst)
        ↔ a ∈ acc.map Prod.fst
          ∨ ∃ k ∈ icons.map Prod.fst, a = linkName tid k := by
  induction icons with
  | nil => intro acc; simp
  | cons e es ih =>
    intro acc
    simp only [List.foldl_cons, ih, mem_insertAssoc_keys, List.map_cons,
      List.mem_cons]
    constructor
    · rintro ((rfl | h) | ⟨k, hk, rfl⟩)
      · exact Or.inr ⟨e.1, Or.inl rfl, rfl⟩
      · exact Or.inl h
      · exact Or.inr ⟨k, Or.inr hk, rfl⟩
    · rintro (h | ⟨k, (rfl | hk), rfl⟩)
      · exact Or.inl (Or.inr h)
      · exact Or.inl (Or.inl rfl)
      · exact Or.inr ⟨k, hk, rfl⟩

theorem mem_webCreatedOfType_keys {entry : Nat × List (IconKind × String)}
    {acc : List (String × String)} {a : String} :
    a ∈ (webCreatedOfType acc entry).map Prod.fst
      ↔ a ∈ acc.map Prod.fst ∨ a = jsonName entry.1
        ∨ ∃ k ∈ entry.2.map Prod.fst, a = linkName entry.1 k := by
  unfold webCreatedOfType
  rw [mem_linkFold_keys, mem_insertAssoc_keys]
  tauto

theorem mem_webCreatedFiles_keys {meta : Meta} {a : String} :
    a ∈ (webCreatedFiles meta).map Prod.fst
      ↔ ∃ p ∈ meta, a = jsonName p.1
          ∨ ∃ k ∈ p.2.map Prod.fst, a = linkName p.1 k := by
  unfold webCreatedFiles
  suffices h : ∀ acc : List (String × String),
      a ∈ ((meta.foldl webCreatedOfType acc).map Prod.fst)
        ↔ a ∈ acc.map Prod.fst ∨ ∃ p ∈ meta, a = jsonName p.1
            ∨ ∃ k ∈ p.2.map Prod.fst, a = linkName p.1 k by
    rw [h []]
    simp
  induction meta with
  | nil => intro acc; simp
  | cons entry rest ih =>
    intro acc
    simp only [List.foldl_cons, ih, mem_webCreatedOfType_keys, List.mem_cons]
    constructor
    · rintro ((h | h | h) | ⟨p, hp, hc⟩)
      · exact Or.inl h
      · exact Or.inr ⟨entry, Or.inl rfl, Or.inl h⟩
      · exact Or.inr ⟨entry, Or.inl rfl, Or.inr h⟩
      · exact Or.inr ⟨p, Or.inr hp, hc⟩
    · rintro (h | ⟨p, (rfl | hp), hc⟩)
      · exact Or.inl (Or.inl h)
      · rcases hc with h | h
        · exact Or.inl (Or.inr (Or.inl h))
        · exact Or.inl (Or.inr (Or.inr h))
      · exact Or.inr ⟨p, hp, hc⟩

theorem applyOrd_keys
    (ord : Nat → List (IconKind × String) → List (IconKind × String))
    (meta : Meta) : (applyOrd ord meta).map Prod.fst = meta.map Prod.fst := by
  unfold applyOrd
  rw [List.map_map]
  rfl

theorem metaWF_applyOrd
    {ord : Nat → List (IconKind × String) → List (IconKind × String)}
    {meta : Meta} (hperm : ∀ t l, List.Perm (ord t l) l)
    (hwf : MetaWF meta) : MetaWF (applyOrd ord meta) := by
  refine ⟨?_, ?_⟩
  · rw [applyOrd_keys]
    exact hwf.1
  · intro p hp
    rcases List.mem_map.mp hp with ⟨q, hq, hpq⟩
    rw [← hpq]
    exact ((hperm q.1 q.2).map Prod.fst).nodup_iff.mpr (hwf.2 q hq)

theorem webCreatedFiles_keys_ord
    {ord₁ ord₂ : Nat → List (IconKind × String) → List (IconKind × String)}
    {meta : Meta} (h₁ : ∀ t l, List.Perm (ord₁ t l) l)
    (h₂ : ∀ t l, List.Perm (ord₂ t l) l) {a : String}
    (ha : a ∈ (webCreatedFiles (applyOrd ord₁ meta)).map Prod.fst) :
    a ∈ (webCreatedFiles (applyOrd ord₂ meta)).map Prod.fst := by
  rw [mem_webCreatedFiles_keys] at ha ⊢
  rcases ha with ⟨p, hp, hc⟩
  rcases List.mem_map.mp hp with ⟨q, hq, hpq⟩
  refine ⟨(q.1, ord₂ q.1 q.2), List.mem_map.mpr ⟨q, hq, rfl⟩, ?_⟩
  rw [← hpq] at hc
  rcases hc with h | ⟨k, hk, hl⟩
  · exact Or.inl h
  · refine Or.inr ⟨k, ?_, hl⟩
    have hk2 : k ∈ q.2.map Prod.fst :=
      ((h₁ q.1 q.2).map Prod.fst).mem_iff.mp hk
    exact ((h₂ q.1 q.2).map Prod.fst).mem_iff.mpr hk2

theorem webFold_manifests_only (links : List (String × String)) (meta : Meta)
    (h : ∀ p ∈ meta, ∀ e ∈ p.2,
      links.lookup (linkName p.1 e.1) = some e.2) :
    ∀ acc : List (String × String) × List Event,
      ∀ e ∈ (meta.foldl (webTypeStep false links) acc).2,
        e ∈ acc.2 ∨ ∃ n c, e = Event.webWriteManifest n c := by
  induction meta with
  | nil => intro acc e he; exact Or.inl he
  | cons entry rest ih =>
    intro acc e he
    simp only [List.foldl_cons] at he
    rcases ih (fun p hp => h p (List.mem_cons_of_mem _ hp)) _ e he with h2 | h2
    · have hevs := webLinkFold_events links entry.1 entry.2
        (insertAssoc acc.1 (jsonName entry.1)
            (serializeKinds (entry.2.map Prod.fst)),
         if false || !(links.lookup (jsonName entry.1)
             = some (serializeKinds (entry.2.map Prod.fst)) : Bool)
         then acc.2 ++ [Event.webWriteManifest (jsonName entry.1)
           (serializeKinds (entry.2.map Prod.fst))]
         else acc.2)
        (h entry (List.mem_cons_self _ _))
      have h3 : e ∈ (if false || !(links.lookup (jsonName entry.1)
            = some (serializeKinds (entry.2.map Prod.fst)) : Bool)
          then acc.2 ++ [Event.webWriteManifest (jsonName entry.1)
            (serializeKinds (entry.2.map Prod.fst))]
          else acc.2) := by
        have h4 : e ∈ (entry.2.foldl (webLinkStep false links entry.1)
            (insertAssoc acc.1 (jsonName entry.1)
                (serializeKinds (entry.2.map Prod.fst)),
             if false || !(links.lookup (jsonName entry.1)
                 = some (serializeKinds (entry.2.map Prod.fst)) : Bool)
             then acc.2 ++ [Event.webWriteManifest (jsonName entry.1)
               (serializeKinds (entry.2.map Prod.fst))]
             else acc.2)).2 := h2
        rw [hevs] at h4
        exact h4
      split at h3
      · rcases List.mem_append.mp h3 with h5 | h5
        · exact Or.inl h5
        · exact Or.inr ⟨_, _, by simpa using h5⟩
      · exact Or.inl h3
    · exact Or.inr h2

theorem webPublish_no_link_mutation {links : List (String × String)}
    {meta : Meta}
    (hlink : ∀ p ∈ meta, ∀ e ∈ p.2,
      links.lookup (linkName p.1 e.1) = some e.2)
    (hkeys : ∀ a ∈ links.map Prod.fst,
      a ∈ (webCreatedFiles meta).map Prod.fst) :
    ∀ e ∈ webPublish false links meta,
      (∃ n c, e = Event.webWriteManifest n c)
        ∨ e = Event.webWriteLinkIndex (webCreatedFiles meta) := by
  intro e he
  have he2 : e ∈ (webFold false links meta).2
      ++ ((links.map Prod.fst).filter
            (fun x => !((webFold false links meta).1.map Prod.fst).contains x)).map
          Event.webRemoveStale
      ++ [Event.webWriteLinkIndex (webFold false links meta).1] := he
  rcases List.mem_append.mp he2 with h | h
  · rcases List.mem_append.mp h with h2 | h2
    · rcases webFold_manifests_only links meta hlink ([], []) e h2 with h3 | h3
      · simp at h3
      · exact Or.inl h3
    · rcases List.mem_map.mp h2 with ⟨n, hn, hne⟩
      rcases List.mem_filter.mp hn with ⟨hn1, hn2⟩
      rw [webFold_fst] at hn2
      have hn3 := hkeys n hn1
      simp [List.elem_eq_mem, hn3] at hn2
  · rw [webFold_fst] at h
    exact Or.inr (by simpa using h)

theorem build_icon_export_web_ok (out : String) (cfb hl skip : Bool)
    (data : IconBuildData) (cache : CacheModel) (csv : Option (List Char))
    (webidx : Option (List (String × String)))
    (ord : Nat → List (IconKind × String) → List (IconKind × String))
    (force : Bool) (u : Unit)
    (m : Meta) (ni : List String) (evs : List Event)
    (h : processTypes data cache (loadOldIndex csv) force data.types initState
        = (.ok u, RunState.mk m ni evs)) :
    build_icon_export (.web out cfb hl) skip data cache csv webidx ord force =
      (evs ++ [.writeIndexFile (indexBytes ni)]
        ++ (if (ni.filter (fun k => !(loadOldIndex csv).contains k)).length = 0
              ∧ ((loadOldIndex csv).filter (fun k => !ni.contains k)).length = 0
              ∧ skip = true
            then []
            else webPublish force (webidx.getD []) (applyOrd ord m))
        ++ ((loadOldIndex csv).filter (fun k => !ni.contains k)).map
            Event.removeCachedFile,
       .ok ((ni.filter (fun k => !(loadOldIndex csv).contains k)).length,
            ((loadOldIndex csv).filter (fun k => !ni.contains k)).length)) := by
  have h2 : processTypes data cache (loadOldIndex csv) force data.types
      { meta := [], new_index := [], events := [] }
      = (.ok u, RunState.mk m ni evs) := h
  simp only [build_icon_export]
  rw [h2]

/-- C3 (amended): second-run behaviour in web output mode.  If a first run
over some build data and resource store completes successfully, wrote the
index record `I` and the link-index map `CF`, then re-running with the same
data and store, `force_rebuild = false`, the persisted `I` as the old
`cache.csv` record and the persisted `CF` as the old `index.json` map —
whatever `HashMap` iteration order `ord₂` the second process draws — returns
`(added, removed) = (0, 0)` and its trace performs no compositing or copy
recipe, creates no link, removes no stale entry, and deletes no cached
file.  Manifest rewrites are NOT excluded in general: the kind list is
serialized in the map's arbitrary iteration order, so a manifest is written
exactly when the recomputed serialization differs from the stored one; when
the second run iterates every per-type map in the first run's order
(`ord₂ = ord₁`), no web-directory mutation at all occurs.  The hash values
exposed by the store are assumed free of the record separator 0x1E, which
the `cache.csv` format reserves. -/
theorem second_run_is_noop (data : IconBuildData) (cache : CacheModel)
    (out : String) (cfb hl skip f₁ : Bool) (csv₀ : Option (List Char))
    (webidx₀ : Option (List (String × String)))
    (ord₁ ord₂ : Nat → List (IconKind × String) → List (IconKind × String))
    (tr₁ : List Event) (p₁ : Nat × Nat) (I : List Char)
    (CF : List (String × String))
    (hperm₁ : ∀ t l, List.Perm (ord₁ t l) l)
    (hperm₂ : ∀ t l, List.Perm (ord₂ t l) l)
    (hsep : ∀ r h, cache.hash_of r = some h → SEP ∉ h.toList)
    (h₁ : build_icon_export (.web out cfb hl) skip data cache
        csv₀ webidx₀ ord₁ f₁ = (tr₁, .ok p₁))
    (hI : Event.writeIndexFile I ∈ tr₁)
    (hCF : Event.webWriteLinkIndex CF ∈ tr₁) :
    (build_icon_export (.web out cfb hl) skip data cache
        (some I) (some CF) ord₂ false).2 = .ok (0, 0) ∧
    (∀ e ∈ (build_icon_export (.web out cfb hl) skip data cache
        (some I) (some CF) ord₂ false).1,
      isRecipeEvent e = false ∧ (∀ n t, e ≠ .webCreateLink n t) ∧
        (∀ n, e ≠ .webRemoveStale n) ∧ ∀ fl, e ≠ .removeCachedFile fl) ∧
    (ord₂ = ord₁ →
      ∀ e ∈ (build_icon_export (.web out cfb hl) skip data cache
          (some I) (some CF) ord₂ false).1,
        isWebMutationEvent e = false) := by
  rcases hple : processTypes data cache (loadOldIndex csv₀) f₁ data.types
      initState with ⟨r₁, m₁, ni₁, evs₁⟩
  cases r₁ with
  | error err =>
    have hsnd : (build_icon_export (.web out cfb hl) skip data cache
        csv₀ webidx₀ ord₁ f₁).2 = .error err := by
      have hple2 : processTypes data cache (loadOldIndex csv₀) f₁ data.types
          { meta := [], new_index := [], events := [] }
          = (.error err, RunState.mk m₁ ni₁ evs₁) := hple
      simp only [build_icon_export]
      rw [hple2]
    rw [h₁] at hsnd
    simp at hsnd
  | ok u =>
    cases u
    obtain ⟨hgood, hnodup, hrec, hwf⟩ := grows_init hple
    have hgood' : ∀ f ∈ ni₁, GoodName cache f := hgood
    have hrec' : ∀ e ∈ evs₁, isRecipeEvent e = true := hrec
    have hwf' : MetaWF m₁ := hwf
    have hbuild₁ := build_icon_export_web_ok out cfb hl skip data cache
      csv₀ webidx₀ ord₁ f₁ () m₁ ni₁ evs₁ hple
    rw [hbuild₁, Prod.mk.injEq] at h₁
    obtain ⟨htr, hp⟩ := h₁
    rw [← htr] at hI hCF
    have hIeq : I = indexBytes ni₁ := by
      rcases List.mem_append.mp hI with h | h
      · rcases List.mem_append.mp h with h2 | h2
        · rcases List.mem_append.mp h2 with h3 | h3
          · have h4 := hrec' _ h3
            simp [isRecipeEvent] at h4
          · have h4 : Event.writeIndexFile I
                = Event.writeIndexFile (indexBytes ni₁) := by simpa using h3
            injection h4 with h5
        · split at h2
          · simp at h2
          · rcases mem_webPublish h2 with ⟨n, c, h5⟩ | ⟨n, t, h5⟩ | ⟨n, h5⟩ | h5 <;>
              simp at h5
      · rcases List.mem_map.mp h with ⟨n, -, h5⟩
        simp at h5
    have hCFeq : CF = webCreatedFiles (applyOrd ord₁ m₁) := by
      rcases List.mem_append.mp hCF with h | h
      · rcases List.mem_append.mp h with h2 | h2
        · rcases List.mem_append.mp h2 with h3 | h3
          · have h4 := hrec' _ h3
            simp [isRecipeEvent] at h4
          · simp at h3
        · split at h2
          · simp at h2
          · rcases mem_webPublish h2 with ⟨n, c, h5⟩ | ⟨n, t, h5⟩ | ⟨n, h5⟩ | h5
            · simp at h5
            · simp at h5
            · simp at h5
            · injection h5 with h6
              rw [webFold_fst] at h6
              exact h6
      · rcases List.mem_map.mp h with ⟨n, -, h5⟩
        simp at h5
    have hmem : ∀ s : String, s ∈ loadOldIndex (some I) ↔ s ∈ ni₁ := by
      have h0 : loadOldIndex (some I) = loadIndexList (indexBytes ni₁) := by
        rw [hIeq]
        rfl
      rw [h0]
      exact loadIndexList_indexBytes ni₁
        (fun s hs => goodName_ne_sepfree (hgood' s hs) hsep)
    have heq₂ : processTypes data cache (loadOldIndex (some I)) false
        data.types initState = (.ok (), RunState.mk m₁ ni₁ []) := by
      have hsim := @simPair_processTypes data cache (loadOldIndex csv₀)
        (loadOldIndex (some I)) f₁ data.types
      exact hsim initState (RunState.mk m₁ ni₁ evs₁) initState hple rfl rfl
        (fun f hf => (hmem f).mpr hf)
    have hbuild₂ := build_icon_export_web_ok out cfb hl skip data cache
      (some I) (some CF) ord₂ false () m₁ ni₁ [] heq₂
    have hadd : ni₁.filter (fun k => !(loadOldIndex (some I)).contains k)
        = [] := by
      apply List.filter_eq_nil_iff.mpr
      intro a ha
      simp [List.elem_eq_mem, (hmem a).mpr ha]
    have hrem : (loadOldIndex (some I)).filter (fun k => !ni₁.contains k)
        = [] := by
      apply List.filter_eq_nil_iff.mpr
      intro a ha
      simp [List.elem_eq_mem, (hmem a).mp ha]
    have hwfa₁ : MetaWF (applyOrd ord₁ m₁) := metaWF_applyOrd hperm₁ hwf'
    have hlook := lookup_webCreatedFiles hwfa₁ ([] : List (String × String))
    have hlink2 : ∀ p ∈ applyOrd ord₂ m₁, ∀ e ∈ p.2,
        CF.lookup (linkName p.1 e.1) = some e.2 := by
      intro p hp e hep
      rcases List.mem_map.mp hp with ⟨q, hq, hpq⟩
      rw [← hpq] at hep ⊢
      have he1 : e ∈ q.2 := ((hperm₂ q.1 q.2).mem_iff).mp hep
      have he2 : e ∈ ord₁ q.1 q.2 := ((hperm₁ q.1 q.2).mem_iff).mpr he1
      have hm : (q.1, ord₁ q.1 q.2) ∈ applyOrd ord₁ m₁ :=
        List.mem_map.mpr ⟨q, hq, rfl⟩
      have h5 := (hlook q.1 (ord₁ q.1 q.2) hm).2 e.1 e.2 (by simpa using he2)
      rw [hCFeq]
      exact h5
    have hkeys2 : ∀ a ∈ CF.map Prod.fst,
        a ∈ (webCreatedFiles (applyOrd ord₂ m₁)).map Prod.fst := by
      intro a ha
      rw [hCFeq] at ha
      exact webCreatedFiles_keys_ord hperm₁ hperm₂ ha
    refine ⟨?_, ?_, ?_⟩
    · rw [hbuild₂]
      simp only [hadd, hrem, List.length_nil]
    · intro e he
      rw [hbuild₂] at he
      simp only [hadd, hrem, List.length_nil, List.map_nil, List.append_nil,
        List.nil_append, Option.getD_some] at he
      rcases List.mem_append.mp he with h | h
      · have he2 : e = Event.writeIndexFile (indexBytes ni₁) := by simpa using h
        subst he2
        exact ⟨rfl, fun n t hne => Event.noConfusion hne,
          fun n hne => Event.noConfusion hne,
          fun fl hne => Event.noConfusion hne⟩
      · split at h
        · simp at h
        · have h4 : e ∈ webPublish false CF (applyOrd ord₂ m₁) := h
          rcases webPublish_no_link_mutation hlink2 hkeys2 e h4 with
            ⟨n, c, rfl⟩ | rfl
          · exact ⟨rfl, fun a b hne => Event.noConfusion hne,
              fun a hne => Event.noConfusion hne,
              fun fl hne => Event.noConfusion hne⟩
          · exact ⟨rfl, fun a b hne => Event.noConfusion hne,
              fun a hne => Event.noConfusion hne,
              fun fl hne => Event.noConfusion hne⟩
    · intro hord e he
      subst hord
      rw [hbuild₂] at he
      simp only [hadd, hrem, List.length_nil, List.map_nil, List.append_nil,
        List.nil_append, Option.getD_some] at he
      rcases List.mem_append.mp he with h | h
      · have he2 : e = Event.writeIndexFile (indexBytes ni₁) := by simpa using h
        subst he2
        rfl
      · split at h
        · simp at h
        · have h4 : e ∈ webPublish false CF (applyOrd ord₂ m₁) := h
          rw [hCFeq, webPublish_self (metaWF_applyOrd hperm₂ hwf')] at h4
          have he2 : e = Event.webWriteLinkIndex
              (webCreatedFiles (applyOrd ord₂ m₁)) := by simpa using h4
          subst he2
          rfl

/-- C3 witness: the sample run evaluated.  The first web-mode run over the
one-type build data writes the index record and the link map; feeding both
back into a second run with `force_rebuild = false`, with both runs drawing
the identity iteration order, yields `(0, 0)`. -/
theorem second_run_is_noop_witness :
    (∀ (t : Nat) (l : List (IconKind × String)),
      List.Perm ((fun _ l => l) t l) l) ∧
    (∀ r h, sampleCache.hash_of r = some h → SEP ∉ h.toList) ∧
    (build_icon_export (.web "o" false false) false sampleData sampleCache
        none none (fun _ l => l) false
      = ([.copyOrConvert "/p/ic.png" "AB.png" "ic.png" ".png",
          .writeIndexFile ("AB.png".toList),
          .webWriteManifest "7.json" "[\"icon\"]",
          .webCreateLink "7_icon.png" "AB.png",
          .webWriteLinkIndex [("7.json", "[\"icon\"]"),
            ("7_icon.png", "AB.png")]],
         .ok (1, 0))) ∧
    (build_icon_export (.web "o" false false) false sampleData sampleCache
        (some ("AB.png".toList))
        (some [("7.json", "[\"icon\"]"), ("7_icon.png", "AB.png")])
        (fun _ l => l) false).2
      = .ok (0, 0) := by
  have hperm : ∀ (t : Nat) (l : List (IconKind × String)),
      List.Perm ((fun _ l => l) t l) l := fun _ l => List.Perm.refl l
  have hsep : ∀ r h, sampleCache.hash_of r = some h → SEP ∉ h.toList := by
    intro r h hh
    simp only [sampleCache] at hh
    split at hh
    · injection hh with h2
      rw [← h2]
      decide
    · cases hh
  have h₁ : build_icon_export (.web "o" false false) false sampleData
      sampleCache none none (fun _ l => l) false
      = ([.copyOrConvert "/p/ic.png" "AB.png" "ic.png" ".png",
          .writeIndexFile ("AB.png".toList),
          .webWriteManifest "7.json" "[\"icon\"]",
          .webCreateLink "7_icon.png" "AB.png",
          .webWriteLinkIndex [("7.json", "[\"icon\"]"),
            ("7_icon.png", "AB.png")]],
         .ok (1, 0)) := rfl
  refine ⟨hperm, hsep, h₁, ?_⟩
  exact (second_run_is_noop sampleData sampleCache "o" false false false false
    none none (fun _ l => l) (fun _ l => l) _ (1, 0) ("AB.png".toList)
    [("7.json", "[\"icon\"]"), ("7_icon.png", "AB.png")] hperm hperm hsep h₁
    (by decide) (by decide)).1

/-- C3 counterexample: the kind list of a per-type manifest is serialized in
the `HashMap` iteration order (`icons.keys()`, `icons.rs` line 529), which
is arbitrary and can differ between processes.  A first run over a
blueprint type (kinds icon, bp, bpc) completes, returning `(2, 0)` and
writing the index record and the link map found in its trace.  Feeding both
back unchanged with `force_rebuild = false`, a second run whose iteration
order happens to be reversed recomputes a differently-ordered kind list,
fails the equality check against the stored manifest content, and rewrites
the manifest — so "the second run performs no manifest write" is not a
property of the program. -/
theorem second_run_manifest_rewrite :
    (∀ (t : Nat) (l : List (IconKind × String)),
      List.Perm ((fun _ l => List.reverse l) t l) l) ∧
    (build_icon_export (.web "o" false false) false bpData bpCache
        none none (fun _ l => l) false).2 = .ok (2, 0) ∧
    Event.writeIndexFile ("bp;HBP.png\x1ebpc;HBPC.png".toList)
      ∈ (build_icon_export (.web "o" false false) false bpData bpCache
          none none (fun _ l => l) false).1 ∧
    Event.webWriteLinkIndex
        [("100.json", "[\"icon\",\"bp\",\"bpc\"]"),
         ("100_icon.png", "bp;HBP.png"), ("100_bp.png", "bp;HBP.png"),
         ("100_bpc.png", "bpc;HBPC.png")]
      ∈ (build_icon_export (.web "o" false false) false bpData bpCache
          none none (fun _ l => l) false).1 ∧
    Event.webWriteManifest "100.json" "[\"bpc\",\"bp\",\"icon\"]"
      ∈ (build_icon_export (.web "o" false false) false bpData bpCache
          (some ("bp;HBP.png\x1ebpc;HBPC.png".toList))
          (some [("100.json", "[\"icon\",\"bp\",\"bpc\"]"),
                 ("100_icon.png", "bp;HBP.png"), ("100_bp.png", "bp;HBP.png"),
                 ("100_bpc.png", "bpc;HBPC.png")])
          (fun _ l => List.reverse l) false).1 :=
  ⟨fun _ l => List.reverse_perm l, by rfl, by decide, by decide, by decide⟩

theorem blueprint_classification_witness :
    processType bpData bpCache [] false 100
      { group_id := 30, icon_id := none, graphic_id := some 55,
        meta_group_id := none } initState
      = (.ok (), RunState.mk
          [(100, [(.Icon, "bp;HBP.png"), (.Blueprint, "bp;HBP.png"),
                  (.BlueprintCopy, "bpc;HBPC.png")])]
          ["bp;HBP.png", "bpc;HBPC.png"]
          [.copyOrConvert "/c/bp" "bp;HBP.png" "bp/55_64_bp.png" ".png",
           .copyOrConvert "/c/bpc" "bpc;HBPC.png" "bp/55_64_bp.png" ".png"]) := by
  have h := (blueprint_classification bpData bpCache 100 55
    { group_id := 30, icon_id := none, graphic_id := some 55,
      meta_group_id := none } "bp/" "HBP" "/c/bp"
    (by rfl) (by rfl) (by rfl) (by decide) (by rfl) (by decide) (by rfl)
    (by rfl)).1 "HBPC" "/c/bpc" (by decide) (by rfl) (by rfl)
  exact h

end IconGen
